import Mathlib

/-!
Verification of the flow-field pathfinding core of bevy_rts_pathfinding.

The development shallowly embeds the Rust sources:
  - src/cell.rs          (Cell, Cell::increase_cost)
  - src/grid.rs          (Grid::new, Grid::get_cell_from_world_position,
                          Grid::update_cell_costs, Grid::reset_cell_costs,
                          Grid::for_each_cell_in_obj)
  - src/flowfield.rs     (FlowField::create_integration_field,
                          FlowField::create_flowfield,
                          FlowField::get_cell_from_world_position)
  - src/utils.rs         (get_cell_from_world_position_helper,
                          get_cell_from_world_position_helper_generic)

Machine integers are modelled as Nat with explicit reductions modulo 2^w at
the operations where overflow can occur (u16 addition in the relaxation).
Real-valued (f32) quantities are modelled as exact rationals.
-/

namespace RtsPath

/-- Modelled from the spec: the file grid_direction.rs is not under src/, so
the GridDirection enum is reconstructed from the specification: one of nine
symbols, the eight compass directions plus None, with cardinal_directions
listing the four cardinal ones and all_directions the eight compass ones in
a fixed enumeration order.  Vectors follow the grid convention of the spec
(cell (0,0) top-left, x grows to the right (east), y grows downward (south)). -/
inductive GridDirection where
  | none
  | north
  | northEast
  | east
  | southEast
  | south
  | southWest
  | west
  | northWest
deriving DecidableEq

/-- Modelled from the spec: the integer offset of each compass direction. -/
def GridDirection.vector : GridDirection → ℤ × ℤ
  | .none => (0, 0)
  | .north => (0, -1)
  | .northEast => (1, -1)
  | .east => (1, 0)
  | .southEast => (1, 1)
  | .south => (0, 1)
  | .southWest => (-1, 1)
  | .west => (-1, 0)
  | .northWest => (-1, -1)

/-- Modelled from the spec: the four cardinal directions (up/down/left/right). -/
def GridDirection.cardinal_directions : List GridDirection :=
  [.north, .east, .south, .west]

/-- Modelled from the spec: the eight compass directions in the fixed
enumeration order used for the deterministic tie-break. -/
def GridDirection.all_directions : List GridDirection :=
  [.north, .northEast, .east, .southEast, .south, .southWest, .west, .northWest]

/-- Three-component position (f32 components modelled as exact rationals). -/
structure Vec3q where
  x : ℚ
  y : ℚ
  z : ℚ
deriving DecidableEq

/-- Cell, from src/cell.rs.  The best_direction field is the one written by
FlowField::create_flowfield (src/flowfield.rs line 120); cost is a u8 value
in [0,255], best_cost a u16 value in [0,65535], both held as Nat. -/
structure Cell where
  world_position : Vec3q
  grid_idx : ℤ × ℤ
  cost : ℕ
  best_cost : ℕ
  best_direction : GridDirection
deriving DecidableEq

/-- Cell::new from src/cell.rs: cost 1 (baseline), best_cost u16::MAX. -/
def Cell.new (world_position : Vec3q) (grid_idx : ℤ × ℤ) : Cell :=
  ⟨world_position, grid_idx, 1, 65535, .none⟩

/-- Cell::default (the derived Default impl): all components zero. -/
def Cell.defaultCell : Cell :=
  ⟨⟨0, 0, 0⟩, (0, 0), 0, 0, .none⟩

/-- Cell::increase_cost from src/cell.rs: if already u8::MAX leave unchanged,
else checked_add, saturating to u8::MAX on overflow. -/
def Cell.increase_cost (self : Cell) (amount : ℕ) : Cell :=
  if self.cost = 255 then self
  else if self.cost + amount ≤ 255 then { self with cost := self.cost + amount }
  else { self with cost := 255 }

/-! Nested-list grid accessors.  The Rust sources store cells as
Vec&lt;Vec&lt;Cell&gt;&gt; indexed grid[y][x]; all source accesses are guarded by bounds
checks, so the out-of-range default returned by getD is never observed. -/

/-- Read grid[y][x]. -/
def getCell (g : List (List Cell)) (x y : ℕ) : Cell :=
  (g.getD y []).getD x Cell.defaultCell

/-- Write grid[y][x] (no-op out of range, matching the guarded source writes). -/
def setCell (g : List (List Cell)) (x y : ℕ) (c : Cell) : List (List Cell) :=
  g.set y ((g.getD y []).set x c)

def getBest (g : List (List Cell)) (x y : ℕ) : ℕ := (getCell g x y).best_cost

def getCost (g : List (List Cell)) (x y : ℕ) : ℕ := (getCell g x y).cost

/-- Write only the best_cost field of grid[y][x]. -/
def setBest (g : List (List Cell)) (x y : ℕ) (v : ℕ) : List (List Cell) :=
  setCell g x y { getCell g x y with best_cost := v }

/-- Write only the best_direction field of grid[y][x]. -/
def setDir (g : List (List Cell)) (x y : ℕ) (d : GridDirection) : List (List Cell) :=
  setCell g x y { getCell g x y with best_direction := d }

/-- The grid dimensions match the stored size (rows = size.y, cols = size.x). -/
def wfDims (size : ℤ × ℤ) (g : List (List Cell)) : Prop :=
  g.length = size.2.toNat ∧ ∀ row ∈ g, row.length = size.1.toNat

/-- An index is inside the logical grid bounds (the guard used by the source). -/
def inBoundsIdx (size : ℤ × ℤ) (p : ℤ × ℤ) : Prop :=
  0 ≤ p.1 ∧ p.1 < size.1 ∧ 0 ≤ p.2 ∧ p.2 < size.2

instance (size p) : Decidable (inBoundsIdx size p) := by
  unfold inBoundsIdx; infer_instance

instance (size : ℤ × ℤ) (g : List (List Cell)) : Decidable (wfDims size g) := by
  unfold wfDims; infer_instance

/-- Total of all best_cost values; part of the termination measure. -/
def sumBest (g : List (List Cell)) : ℕ :=
  (g.map (fun row => (row.map Cell.best_cost).sum)).sum

/-! Grid and FlowField records, from src/grid.rs and src/flowfield.rs.
The occupied_cells HashMap of Grid is omitted: every insertion into it in
the source is commented out, so it is always empty and no claim reads it.
Entity identifiers are modelled as Nat. -/

structure Grid where
  cell_radius : ℚ
  cell_diameter : ℚ
  grid : List (List Cell)
  size : ℤ × ℤ
deriving DecidableEq

structure FlowField where
  cell_radius : ℚ
  cell_diameter : ℚ
  destination_cell : Cell
  grid : List (List Cell)
  size : ℤ × ℤ
  units : List ℕ
deriving DecidableEq

/-- FlowField::new from src/flowfield.rs lines 28-37. -/
def FlowField.new (cell_radius : ℚ) (grid_size : ℤ × ℤ) (selected_units : List ℕ) :
    FlowField :=
  ⟨cell_radius, cell_radius * 2, Cell.defaultCell, [], grid_size, selected_units⟩

/-- State of the wavefront relaxation loop of create_integration_field:
the FlowField's cell snapshot plus the FIFO work queue (VecDeque modelled
as a list: pop_front takes the head, push_back appends at the tail). -/
structure RelaxState where
  grid : List (List Cell)
  queue : List (ℤ × ℤ)
deriving DecidableEq

/-- Body of the inner for-loop of create_integration_field
(src/flowfield.rs lines 61-85): examine one cardinal neighbor of the popped
cell.  The u16 sum is reduced modulo 2^16 as in the source's u16 addition. -/
def relaxNeighbor (size : ℤ × ℤ) (cur_best : ℕ) (cur : ℤ × ℤ)
    (acc : List (List Cell) × List (ℤ × ℤ)) (dir : GridDirection) :
    List (List Cell) × List (ℤ × ℤ) :=
  let nb := (cur.1 + dir.vector.1, cur.2 + dir.vector.2)
  if inBoundsIdx size nb then
    let c := getCell acc.1 nb.1.toNat nb.2.toNat
    if c.cost = 255 then acc
    else
      let tentative := (c.cost + cur_best) % 65536
      if tentative < c.best_cost then
        (setBest acc.1 nb.1.toNat nb.2.toNat tentative, acc.2 ++ [nb])
      else acc
  else acc

/-- One iteration of the while-loop of create_integration_field
(src/flowfield.rs lines 54-86): pop the front index, read its best_cost
once, then relax its four cardinal neighbors in order. -/
def relaxStep (size : ℤ × ℤ) (s : RelaxState) : RelaxState :=
  match s.queue with
  | [] => s
  | cur :: rest =>
    let cur_best := (getCell s.grid cur.1.toNat cur.2.toNat).best_cost
    let r := GridDirection.cardinal_directions.foldl
      (relaxNeighbor size cur_best cur) (s.grid, [])
    ⟨r.1, rest ++ r.2⟩

/-- Termination measure: total best_cost plus queue length; it strictly
decreases on every loop iteration. -/
def relaxMeasure (s : RelaxState) : ℕ := sumBest s.grid + s.queue.length

/-- The while-loop, driven by fuel; the fuel chosen in
create_integration_field is proved sufficient (the loop exits with an empty
queue), so this is the source's unconditional while-let loop. -/
def relaxLoop (size : ℤ × ℤ) : ℕ → RelaxState → RelaxState
  | 0, s => s
  | fuel + 1, s =>
    match s.queue with
    | [] => s
    | _ :: _ => relaxLoop size fuel (relaxStep size s)

/-- Initial relaxation state of create_integration_field (lines 42-52):
snapshot the Grid's cells, force cost = 0 and best_cost = 0 at the
destination index, seed the queue with only the destination index. -/
def integrationInitState (g0 : List (List Cell)) (dest_idx : ℤ × ℤ) : RelaxState :=
  let dx := dest_idx.1.toNat
  let dy := dest_idx.2.toNat
  ⟨setCell g0 dx dy { getCell g0 dx dy with cost := 0, best_cost := 0 }, [dest_idx]⟩

/-- FlowField::create_integration_field from src/flowfield.rs lines 39-89. -/
def FlowField.create_integration_field (self : FlowField) (grid : Grid)
    (destination_cell : Cell) : FlowField :=
  let s0 := integrationInitState grid.grid destination_cell.grid_idx
  let dest := getCell s0.grid destination_cell.grid_idx.1.toNat
    destination_cell.grid_idx.2.toNat
  let sF := relaxLoop self.size (relaxMeasure s0 + 1) s0
  { self with grid := sF.grid, destination_cell := dest }

/-! Grid construction and the world-to-index mapping, from src/grid.rs and
src/utils.rs.  f32 arithmetic is modelled exactly over the rationals; the
Rust float-to-usize cast saturates below at 0, modelled by Int.toNat after
taking the floor. -/

/-- Rust as-usize cast of a floored float: negative values clamp to 0. -/
def floorToUsize (q : ℚ) : ℕ := ⌊q⌋.toNat

/-- Rust f32::clamp(0.0, 1.0). -/
def qclamp01 (q : ℚ) : ℚ := if q < 0 then 0 else if 1 < q then 1 else q

/-- Grid::new from src/grid.rs lines 48-76: size.y rows of size.x cells,
cell centers offset so the grid is centered on the world origin.  There is
no failure path: the constructor is total, whatever the size. -/
def Grid.new (size : ℤ × ℤ) (cell_diameter : ℚ) : Grid :=
  let cell_radius := cell_diameter / 2
  let offset_x : ℚ := -((size.1 : ℚ) * cell_diameter) / 2
  let offset_y : ℚ := -((size.2 : ℚ) * cell_diameter) / 2
  { cell_diameter := cell_diameter
    cell_radius := cell_radius
    size := size
    grid := (List.range size.2.toNat).map (fun (y : ℕ) =>
      (List.range size.1.toNat).map (fun (x : ℕ) =>
        Cell.new
          ⟨cell_diameter * (x : ℚ) + cell_radius + offset_x, 0,
           cell_diameter * (y : ℚ) + cell_radius + offset_y⟩
          ((x : ℤ), (y : ℤ)))) }

/-- The index pair computed by get_cell_from_world_position_helper
(src/utils.rs lines 28-50): no clamp of the percentages, floor cast
saturating at 0, then min against grid_size - 1. -/
def helperLocateIndex (world_pos : Vec3q) (grid_size : ℤ × ℤ)
    (cell_diameter : ℚ) : ℕ × ℕ :=
  let adjusted_x := world_pos.x - (-(grid_size.1 : ℚ) * cell_diameter / 2)
  let adjusted_y := world_pos.z - (-(grid_size.2 : ℚ) * cell_diameter / 2)
  let percent_x := adjusted_x / ((grid_size.1 : ℚ) * cell_diameter)
  let percent_y := adjusted_y / ((grid_size.2 : ℚ) * cell_diameter)
  (min (floorToUsize ((grid_size.1 : ℚ) * percent_x)) (grid_size.1.toNat - 1),
   min (floorToUsize ((grid_size.2 : ℚ) * percent_y)) (grid_size.2.toNat - 1))

/-- get_cell_from_world_position_helper from src/utils.rs lines 28-50. -/
def get_cell_from_world_position_helper (world_pos : Vec3q) (grid_size : ℤ × ℤ)
    (cell_diameter : ℚ) (grid : List (List Cell)) : Cell :=
  getCell grid (helperLocateIndex world_pos grid_size cell_diameter).1
    (helperLocateIndex world_pos grid_size cell_diameter).2

/-- get_cell_from_world_position_helper_generic from src/utils.rs lines
64-85: with an offset the indices come from grid_size * offset, otherwise
from position / cell_diameter; both are clamped against the actual row and
column counts of the stored grid. -/
def get_cell_from_world_position_helper_generic (position : Vec3q)
    (grid_size : ℤ × ℤ) (cell_diameter : ℚ) (grid : List (List Cell))
    (offset : Option (ℚ × ℚ)) : Cell :=
  let xy : ℕ × ℕ :=
    match offset with
    | some off =>
      (floorToUsize ((grid_size.1 : ℚ) * off.1), floorToUsize ((grid_size.2 : ℚ) * off.2))
    | Option.none =>
      (floorToUsize (position.x / cell_diameter), floorToUsize (position.z / cell_diameter))
  getCell grid (min xy.1 ((grid.getD 0 []).length - 1)) (min xy.2 (grid.length - 1))

/-- Grid::get_cell_from_world_position from src/grid.rs lines 78-96:
computes the unclamped percentages and passes them as the offset to the
generic helper (the source's five-argument helper call). -/
def Grid.get_cell_from_world_position (self : Grid) (world_pos : Vec3q) : Cell :=
  let adjusted_x := world_pos.x - (-(self.size.1 : ℚ) * self.cell_diameter / 2)
  let adjusted_y := world_pos.z - (-(self.size.2 : ℚ) * self.cell_diameter / 2)
  let percent_x := adjusted_x / ((self.size.1 : ℚ) * self.cell_diameter)
  let percent_y := adjusted_y / ((self.size.2 : ℚ) * self.cell_diameter)
  get_cell_from_world_position_helper_generic world_pos self.size self.cell_diameter
    self.grid (some (percent_x, percent_y))

/-- The index pair computed by FlowField::get_cell_from_world_position
(src/flowfield.rs lines 125-146): percentages clamped into [0,1], floor,
then min against size - 1. -/
def flowLocateIndex (size : ℤ × ℤ) (cell_diameter : ℚ) (wx wz : ℚ) : ℕ × ℕ :=
  let adjusted_x := wx - (-(size.1 : ℚ) * cell_diameter / 2)
  let adjusted_y := wz - (-(size.2 : ℚ) * cell_diameter / 2)
  let percent_x := qclamp01 (adjusted_x / ((size.1 : ℚ) * cell_diameter))
  let percent_y := qclamp01 (adjusted_y / ((size.2 : ℚ) * cell_diameter))
  (min (floorToUsize ((size.1 : ℚ) * percent_x)) (size.1.toNat - 1),
   min (floorToUsize ((size.2 : ℚ) * percent_y)) (size.2.toNat - 1))

/-- FlowField::get_cell_from_world_position from src/flowfield.rs 125-146. -/
def FlowField.get_cell_from_world_position (self : FlowField) (world_pos : Vec3q) :
    Cell :=
  getCell self.grid (flowLocateIndex self.size self.cell_diameter world_pos.x world_pos.z).1
    (flowLocateIndex self.size self.cell_diameter world_pos.x world_pos.z).2

/-! Footprint resolution and dynamic cost maintenance, from src/grid.rs
lines 98-200.  The RtsObjSize component type lives in src/components.rs,
which is not under src/; from its uses (obj_size.0 / 2.0 with x and y
fields) it is a newtype over a 2-component size, modelled as a pair of
rationals.  Only the translation of the object Transform is read. -/

/-- The inclusive integer range min..=max of the Rust for loops. -/
def intRangeIncl (a b : ℤ) : List ℤ :=
  (List.range (b + 1 - a).toNat).map (fun k => a + (k : ℤ))

/-- The occupied_cells list built by Grid::for_each_cell_in_obj
(src/grid.rs lines 121-172): floor the AABB corners into cell coordinates
and keep the in-bounds part of the inclusive rectangle.  The source builds
the z extent of the AABB from the y component of the halved size. -/
def Grid.for_each_cell_in_obj_footprint (self : Grid) (obj_translation : Vec3q)
    (obj_size : ℚ × ℚ) : List (ℤ × ℤ) :=
  let cell_size := self.cell_diameter
  let grid_offset_x := -(self.size.1 : ℚ) * cell_size / 2
  let grid_offset_y := -(self.size.2 : ℚ) * cell_size / 2
  let half_x := obj_size.1 / 2
  let half_y := obj_size.2 / 2
  let min_x := ⌊(obj_translation.x - half_x - grid_offset_x) / cell_size⌋
  let max_x := ⌊(obj_translation.x + half_x - grid_offset_x) / cell_size⌋
  let min_y := ⌊(obj_translation.z - half_y - grid_offset_y) / cell_size⌋
  let max_y := ⌊(obj_translation.z + half_y - grid_offset_y) / cell_size⌋
  ((intRangeIncl min_y max_y).map (fun y =>
    (intRangeIncl min_x max_x).filterMap (fun x =>
      if 0 ≤ x ∧ x < self.size.1 ∧ 0 ≤ y ∧ y < self.size.2
      then some (x, y) else Option.none))).flatten

/-- Write a constant cost into every listed cell (the loops of
update_cell_cost_helper and reset_cell_cost_helper; the discarded
get_cell_from_world_position(Vec3::ZERO) read of those helpers is pure and
its result unused, so it is not modelled). -/
def setCostsTo (g : List (List Cell)) (cells : List (ℤ × ℤ)) (v : ℕ) :
    List (List Cell) :=
  cells.foldl (fun acc p =>
    setCell acc p.1.toNat p.2.toNat { getCell acc p.1.toNat p.2.toNat with cost := v }) g

/-- Grid::update_cell_costs from src/grid.rs lines 98-107: raise every
footprint cell to 255. -/
def Grid.update_cell_costs (self : Grid) (entity_id : ℕ) (obj_translation : Vec3q)
    (obj_size : ℚ × ℚ) : Grid :=
  { self with
    grid := setCostsTo self.grid
      (self.for_each_cell_in_obj_footprint obj_translation obj_size) 255 }

/-- Grid::reset_cell_costs from src/grid.rs lines 109-118: unconditionally
set every footprint cell back to the baseline cost 1. -/
def Grid.reset_cell_costs (self : Grid) (entity_id : ℕ) (obj_translation : Vec3q)
    (obj_size : ℚ × ℚ) : Grid :=
  { self with
    grid := setCostsTo self.grid
      (self.for_each_cell_in_obj_footprint obj_translation obj_size) 1 }

/-! The direction-field pass, from src/flowfield.rs lines 91-123. -/

/-- Body of the inner direction loop of create_flowfield (lines 104-117):
compare one neighbor against the running minimum, strictly. -/
def dirStep (g : List (List Cell)) (size : ℤ × ℤ) (x y : ℕ)
    (acc : ℕ × GridDirection) (direction : GridDirection) : ℕ × GridDirection :=
  if inBoundsIdx size ((x : ℤ) + direction.vector.1, (y : ℤ) + direction.vector.2) then
    if (getCell g ((x : ℤ) + direction.vector.1).toNat
        ((y : ℤ) + direction.vector.2).toNat).best_cost < acc.1 then
      ((getCell g ((x : ℤ) + direction.vector.1).toNat
        ((y : ℤ) + direction.vector.2).toNat).best_cost, direction)
    else acc
  else acc

/-- The (best_cost, best_direction) accumulator after scanning all eight
directions for the cell at (x, y), starting from the cell's own best_cost
and GridDirection::None (lines 100-117). -/
def bestDirFold (g : List (List Cell)) (size : ℤ × ℤ) (x y : ℕ) :
    ℕ × GridDirection :=
  GridDirection.all_directions.foldl (dirStep g size x y)
    (getBest g x y, GridDirection.none)

/-- Process one cell of the nested y/x loops of create_flowfield: write the
selected direction into the grid (line 120). -/
def flowStep (size : ℤ × ℤ) (g : List (List Cell)) (pos : ℕ × ℕ) :
    List (List Cell) :=
  setDir g pos.1 pos.2 (bestDirFold g size pos.1 pos.2).2

/-- Row-major traversal order of the create_flowfield loops (y outer). -/
def allPositions (size : ℤ × ℤ) : List (ℕ × ℕ) :=
  ((List.range size.2.toNat).map (fun y =>
    (List.range size.1.toNat).map (fun x => (x, y)))).flatten

/-- The grid produced by FlowField::create_flowfield. -/
def createFlowfieldGrid (size : ℤ × ℤ) (g : List (List Cell)) :
    List (List Cell) :=
  (allPositions size).foldl (flowStep size) g

/-- FlowField::create_flowfield from src/flowfield.rs lines 91-123. -/
def FlowField.create_flowfield (self : FlowField) : FlowField :=
  { self with grid := createFlowfieldGrid self.size self.grid }

/-! Lemmas about the direction-selection fold of create_flowfield.  The
fold is analysed through an abstract strict-minimum scan over a direction
list, with P the in-bounds test and B the neighbor best_cost. -/

def scanStep (P : GridDirection → Prop) [DecidablePred P] (B : GridDirection → ℕ)
    (acc : ℕ × GridDirection) (d : GridDirection) : ℕ × GridDirection :=
  if P d then (if B d < acc.1 then (B d, d) else acc) else acc

/-! Claim theorems. -/

/-- Well-formed grid in the sense of the specification: both dimensions at
least 1, stored rows matching the size, and every cost in [1, 255]. -/
def Grid.wellFormed (g : Grid) : Prop :=
  1 ≤ g.size.1 ∧ 1 ≤ g.size.2 ∧ wfDims g.size g.grid ∧
    ∀ row ∈ g.grid, ∀ c ∈ row, 1 ≤ c.cost ∧ c.cost ≤ 255

instance (g : Grid) : Decidable g.wellFormed := by
  unfold Grid.wellFormed
  infer_instance

/-! Concrete wall scenario for C3: a 2 x 1 grid whose right cell is
impassable, destination at the left cell. -/

def wallGridBase : Grid := Grid.new ((2 : ℤ), (1 : ℤ)) 1

def wallGrid : Grid :=
  { wallGridBase with grid := setCostsTo wallGridBase.grid [((1 : ℤ), (0 : ℤ))] 255 }

def wallFF : FlowField :=
  (FlowField.new wallGrid.cell_radius wallGrid.size []).create_integration_field
    wallGrid (getCell wallGrid.grid 0 0)

/-- Concrete scenario for C10: a 2 x 1 grid whose left cell still holds the
unreached sentinel while its east neighbor holds a finite distance. -/
def c10Grid : List (List Cell) := setBest (Grid.new ((2 : ℤ), (1 : ℤ)) 1).grid 1 0 5

/-! Basic lemmas about getD/set on lists. -/

theorem getD_set_eq_ite {α : Type} (l : List α) (i j : ℕ) (v d : α) :
    (l.set i v).getD j d = if i = j ∧ i < l.length then v else l.getD j d := by
  induction l generalizing i j with
  | nil => simp [List.set]
  | cons a t ih =>
    cases i with
    | zero =>
      cases j with
      | zero => simp
      | succ j => simp [List.getD]
    | succ i =>
      cases j with
      | zero => simp [List.getD]
      | succ j =>
        simp only [List.set, List.getD_cons_succ, List.length_cons, ih]
        congr 1
        simp [Nat.succ_lt_succ_iff]

theorem length_set_list {α : Type} (l : List α) (i : ℕ) (v : α) :
    (l.set i v).length = l.length := by
  simp

theorem mem_of_mem_set {α : Type} {l : List α} {i : ℕ} {v a : α}
    (h : a ∈ l.set i v) : a ∈ l ∨ a = v := by
  induction l generalizing i with
  | nil => simp [List.set] at h
  | cons b t ih =>
    cases i with
    | zero =>
      rcases List.mem_cons.mp h with h1 | h1
      · exact Or.inr h1
      · exact Or.inl (List.mem_cons_of_mem _ h1)
    | succ i =>
      rcases List.mem_cons.mp h with h1 | h1
      · exact Or.inl (h1 ▸ List.mem_cons_self _ _)
      · rcases ih h1 with h2 | h2
        · exact Or.inl (List.mem_cons_of_mem _ h2)
        · exact Or.inr h2

/-- Full pointwise description of setCell. -/
theorem getCell_setCell (g : List (List Cell)) (x y : ℕ) (c : Cell) (x' y' : ℕ) :
    getCell (setCell g x y c) x' y' =
      if x = x' ∧ y = y' ∧ y < g.length ∧ x < (g.getD y []).length then c
      else getCell g x' y' := by
  unfold getCell setCell
  rw [getD_set_eq_ite]
  by_cases hy : y = y' ∧ y < g.length
  · obtain ⟨hyy, hyl⟩ := hy
    subst hyy
    rw [if_pos ⟨rfl, hyl⟩, getD_set_eq_ite]
    by_cases hx : x = x' ∧ x < (g.getD y []).length
    · rw [if_pos hx, if_pos ⟨hx.1, rfl, hyl, hx.2⟩]
    · rw [if_neg hx, if_neg]
      intro h'
      exact hx ⟨h'.1, h'.2.2.2⟩
  · rw [if_neg hy, if_neg]
    intro h'
    exact hy ⟨h'.2.1, h'.2.2.1⟩

theorem getCell_setCell_ne (g : List (List Cell)) (x y : ℕ) (c : Cell) {x' y' : ℕ}
    (h : ¬(x = x' ∧ y = y')) :
    getCell (setCell g x y c) x' y' = getCell g x' y' := by
  rw [getCell_setCell]
  split
  · rename_i h'
    exact absurd ⟨h'.1, h'.2.1⟩ h
  · rfl

theorem getCell_setCell_self (g : List (List Cell)) (x y : ℕ) (c : Cell)
    (hy : y < g.length) (hx : x < (g.getD y []).length) :
    getCell (setCell g x y c) x y = c := by
  rw [getCell_setCell, if_pos ⟨rfl, rfl, hy, hx⟩]

theorem map_length_setCell (g : List (List Cell)) (x y : ℕ) (c : Cell) :
    (setCell g x y c).map List.length = g.map List.length := by
  induction g generalizing y with
  | nil => rfl
  | cons r t ih =>
    cases y with
    | zero => simp [setCell]
    | succ y =>
      have : setCell (r :: t) x (y + 1) c = r :: setCell t x y c := by
        simp [setCell, List.getD_cons_succ]
      rw [this]
      simp only [List.map_cons, List.cons.injEq]
      exact ⟨trivial, ih y⟩

theorem length_setCell (g : List (List Cell)) (x y : ℕ) (c : Cell) :
    (setCell g x y c).length = g.length := by
  simp [setCell]

theorem sum_set_nat (l : List ℕ) (i v : ℕ) (h : i < l.length) :
    (l.set i v).sum + l.getD i 0 = l.sum + v := by
  induction l generalizing i with
  | nil => simp at h
  | cons a t ih =>
    cases i with
    | zero => simp [Nat.add_comm, Nat.add_left_comm, Nat.add_assoc]
    | succ i =>
      simp only [List.set, List.sum_cons, List.getD_cons_succ]
      have := ih i (by simpa using Nat.lt_of_succ_lt_succ h)
      omega

theorem sum_row_set (l : List Cell) (i : ℕ) (c : Cell) (h : i < l.length) :
    ((l.set i c).map Cell.best_cost).sum + (l.getD i Cell.defaultCell).best_cost =
      (l.map Cell.best_cost).sum + c.best_cost := by
  induction l generalizing i with
  | nil => simp at h
  | cons a t ih =>
    cases i with
    | zero => simp [Nat.add_comm, Nat.add_left_comm, Nat.add_assoc]
    | succ i =>
      simp only [List.set, List.map_cons, List.sum_cons, List.getD_cons_succ]
      have := ih i (by simpa using Nat.lt_of_succ_lt_succ h)
      omega

theorem sumBest_setCell (g : List (List Cell)) (x y : ℕ) (c : Cell)
    (hy : y < g.length) (hx : x < (g.getD y []).length) :
    sumBest (setCell g x y c) + (getCell g x y).best_cost = sumBest g + c.best_cost := by
  induction g generalizing y with
  | nil => simp at hy
  | cons r t ih =>
    cases y with
    | zero =>
      simp only [List.getD_cons_zero] at hx
      simp only [setCell, List.getD_cons_zero, List.set, sumBest, List.map_cons,
        List.sum_cons, getCell]
      have := sum_row_set r x c hx
      omega
    | succ y =>
      have hstep : setCell (r :: t) x (y + 1) c = r :: setCell t x y c := by
        simp [setCell, List.getD_cons_succ]
      simp only [List.getD_cons_succ] at hx
      have hy' : y < t.length := by simpa using Nat.lt_of_succ_lt_succ hy
      have := ih y hy' hx
      simp only [hstep, sumBest, List.map_cons, List.sum_cons, getCell,
        List.getD_cons_succ] at *
      omega

theorem getBest_setBest_le (g : List (List Cell)) (x y v : ℕ)
    (h : v ≤ getBest g x y) (x' y' : ℕ) :
    getBest (setBest g x y v) x' y' ≤ getBest g x' y' := by
  unfold getBest setBest
  rw [getCell_setCell]
  split
  · rename_i h'
    obtain ⟨hx, hy, _, _⟩ := h'
    subst hx; subst hy
    exact h
  · exact Nat.le_refl _

theorem getCost_setBest (g : List (List Cell)) (x y v : ℕ) (x' y' : ℕ) :
    getCost (setBest g x y v) x' y' = getCost g x' y' := by
  unfold getCost setBest
  rw [getCell_setCell]
  split
  · rename_i h'
    obtain ⟨hx, hy, _, _⟩ := h'
    subst hx; subst hy
    rfl
  · rfl

theorem getBest_setDir (g : List (List Cell)) (x y : ℕ) (d : GridDirection) (x' y' : ℕ) :
    getBest (setDir g x y d) x' y' = getBest g x' y' := by
  unfold getBest setDir
  rw [getCell_setCell]
  split
  · rename_i h'
    obtain ⟨hx, hy, _, _⟩ := h'
    subst hx; subst hy
    rfl
  · rfl

theorem getCost_setDir (g : List (List Cell)) (x y : ℕ) (d : GridDirection) (x' y' : ℕ) :
    getCost (setDir g x y d) x' y' = getCost g x' y' := by
  unfold getCost setDir
  rw [getCell_setCell]
  split
  · rename_i h'
    obtain ⟨hx, hy, _, _⟩ := h'
    subst hx; subst hy
    rfl
  · rfl

theorem relaxStep_of_empty (size : ℤ × ℤ) (s : RelaxState) (h : s.queue = []) :
    relaxStep size s = s := by
  cases s with
  | mk g q => cases h; rfl

theorem iterate_fixed {α : Type} {f : α → α} {s : α} (h : f s = s) :
    ∀ n, f^[n] s = s := by
  intro n
  induction n with
  | zero => rfl
  | succ n ih => rw [Function.iterate_succ_apply, h, ih]

theorem relaxLoop_eq_iterate (size : ℤ × ℤ) (fuel : ℕ) (s : RelaxState) :
    relaxLoop size fuel s = (relaxStep size)^[fuel] s := by
  induction fuel generalizing s with
  | zero => rfl
  | succ fuel ih =>
    rw [Function.iterate_succ_apply]
    cases hq : s.queue with
    | nil =>
      rw [relaxStep_of_empty size s hq, iterate_fixed (relaxStep_of_empty size s hq)]
      cases s with
      | mk g q => cases hq; rfl
    | cons cur rest =>
      have : relaxLoop size (fuel + 1) s = relaxLoop size fuel (relaxStep size s) := by
        cases s with
        | mk g q => cases hq; rfl
      rw [this, ih]

/-! Lemmas about one neighbor relaxation, the fold over the four cardinal
directions, one loop iteration, and iterated loop steps. -/

theorem relaxNeighbor_best_le (size : ℤ × ℤ) (cb : ℕ) (cur : ℤ × ℤ)
    (acc : List (List Cell) × List (ℤ × ℤ)) (d : GridDirection) (x' y' : ℕ) :
    getBest (relaxNeighbor size cb cur acc d).1 x' y' ≤ getBest acc.1 x' y' := by
  unfold relaxNeighbor
  dsimp only
  split
  · split
    · exact Nat.le_refl _
    · split
      · rename_i h3
        exact getBest_setBest_le _ _ _ _ (Nat.le_of_lt h3) x' y'
      · exact Nat.le_refl _
  · exact Nat.le_refl _

theorem relaxNeighbor_cost (size : ℤ × ℤ) (cb : ℕ) (cur : ℤ × ℤ)
    (acc : List (List Cell) × List (ℤ × ℤ)) (d : GridDirection) (x' y' : ℕ) :
    getCost (relaxNeighbor size cb cur acc d).1 x' y' = getCost acc.1 x' y' := by
  unfold relaxNeighbor
  dsimp only
  split
  · split
    · rfl
    · split
      · exact getCost_setBest _ _ _ _ x' y'
      · rfl
  · rfl

theorem relaxNeighbor_wall (size : ℤ × ℤ) (cb : ℕ) (cur : ℤ × ℤ)
    (acc : List (List Cell) × List (ℤ × ℤ)) (d : GridDirection) (X Y : ℕ)
    (h : getCost acc.1 X Y = 255) :
    getBest (relaxNeighbor size cb cur acc d).1 X Y = getBest acc.1 X Y := by
  unfold relaxNeighbor
  dsimp only
  split
  · split
    · rfl
    · split
      · rename_i h2 h3
        have hne : ¬((cur.1 + d.vector.1).toNat = X ∧ (cur.2 + d.vector.2).toNat = Y) := by
          intro hxy
          apply h2
          show (getCell acc.1 (cur.1 + d.vector.1).toNat (cur.2 + d.vector.2).toNat).cost = 255
          rw [hxy.1, hxy.2]
          exact h
        unfold getBest setBest
        dsimp only
        rw [getCell_setCell_ne _ _ _ _ hne]
      · rfl
  · rfl

theorem relaxNeighbor_queue_mem (size : ℤ × ℤ) (cb : ℕ) (cur : ℤ × ℤ)
    (acc : List (List Cell) × List (ℤ × ℤ)) (d : GridDirection) :
    ∀ p ∈ (relaxNeighbor size cb cur acc d).2,
      p ∈ acc.2 ∨ getCost acc.1 p.1.toNat p.2.toNat ≠ 255 := by
  intro p hp
  unfold relaxNeighbor at hp
  dsimp only at hp
  split at hp
  · split at hp
    · exact Or.inl hp
    · split at hp
      · rename_i h2 h3
        simp only [List.mem_append, List.mem_singleton] at hp
        rcases hp with hp | hp
        · exact Or.inl hp
        · subst hp
          exact Or.inr h2
      · exact Or.inl hp
  · exact Or.inl hp

theorem fold_relaxNeighbor_best_le (size : ℤ × ℤ) (cb : ℕ) (cur : ℤ × ℤ)
    (L : List GridDirection) (acc : List (List Cell) × List (ℤ × ℤ)) (x' y' : ℕ) :
    getBest (L.foldl (relaxNeighbor size cb cur) acc).1 x' y' ≤ getBest acc.1 x' y' := by
  induction L generalizing acc with
  | nil => exact Nat.le_refl _
  | cons d L ih =>
    exact Nat.le_trans (ih _) (relaxNeighbor_best_le size cb cur acc d x' y')

theorem fold_relaxNeighbor_cost (size : ℤ × ℤ) (cb : ℕ) (cur : ℤ × ℤ)
    (L : List GridDirection) (acc : List (List Cell) × List (ℤ × ℤ)) (x' y' : ℕ) :
    getCost (L.foldl (relaxNeighbor size cb cur) acc).1 x' y' = getCost acc.1 x' y' := by
  induction L generalizing acc with
  | nil => rfl
  | cons d L ih =>
    rw [List.foldl_cons, ih _, relaxNeighbor_cost]

theorem fold_relaxNeighbor_wall (size : ℤ × ℤ) (cb : ℕ) (cur : ℤ × ℤ)
    (L : List GridDirection) (acc : List (List Cell) × List (ℤ × ℤ)) (X Y : ℕ)
    (h : getCost acc.1 X Y = 255) :
    getBest (L.foldl (relaxNeighbor size cb cur) acc).1 X Y = getBest acc.1 X Y := by
  induction L generalizing acc with
  | nil => rfl
  | cons d L ih =>
    rw [List.foldl_cons, ih _ ((relaxNeighbor_cost size cb cur acc d X Y).trans h),
      relaxNeighbor_wall size cb cur acc d X Y h]

theorem fold_relaxNeighbor_queue_mem (size : ℤ × ℤ) (cb : ℕ) (cur : ℤ × ℤ)
    (L : List GridDirection) (acc : List (List Cell) × List (ℤ × ℤ)) :
    ∀ p ∈ (L.foldl (relaxNeighbor size cb cur) acc).2,
      p ∈ acc.2 ∨ getCost acc.1 p.1.toNat p.2.toNat ≠ 255 := by
  induction L generalizing acc with
  | nil => exact fun p hp => Or.inl hp
  | cons d L ih =>
    intro p hp
    rw [List.foldl_cons] at hp
    rcases ih _ p hp with h1 | h1
    · exact relaxNeighbor_queue_mem size cb cur acc d p h1
    · rw [relaxNeighbor_cost] at h1
      exact Or.inr h1

theorem relaxStep_best_le (size : ℤ × ℤ) (s : RelaxState) (x' y' : ℕ) :
    getBest (relaxStep size s).grid x' y' ≤ getBest s.grid x' y' := by
  cases s with
  | mk g q =>
    cases q with
    | nil => exact Nat.le_refl _
    | cons cur rest =>
      exact fold_relaxNeighbor_best_le size _ cur GridDirection.cardinal_directions
        (g, []) x' y'

theorem relaxStep_cost (size : ℤ × ℤ) (s : RelaxState) (x' y' : ℕ) :
    getCost (relaxStep size s).grid x' y' = getCost s.grid x' y' := by
  cases s with
  | mk g q =>
    cases q with
    | nil => rfl
    | cons cur rest =>
      exact fold_relaxNeighbor_cost size _ cur GridDirection.cardinal_directions
        (g, []) x' y'

theorem relaxStep_wall (size : ℤ × ℤ) (s : RelaxState) (X Y : ℕ)
    (h : getCost s.grid X Y = 255) :
    getBest (relaxStep size s).grid X Y = getBest s.grid X Y := by
  cases s with
  | mk g q =>
    cases q with
    | nil => rfl
    | cons cur rest =>
      exact fold_relaxNeighbor_wall size _ cur GridDirection.cardinal_directions
        (g, []) X Y h

theorem relaxStep_queue_wall (size : ℤ × ℤ) (s : RelaxState)
    (h : ∀ p ∈ s.queue, getCost s.grid p.1.toNat p.2.toNat ≠ 255) :
    ∀ p ∈ (relaxStep size s).queue,
      getCost (relaxStep size s).grid p.1.toNat p.2.toNat ≠ 255 := by
  intro p hp
  rw [relaxStep_cost]
  cases s with
  | mk g q =>
    cases q with
    | nil => exact h p hp
    | cons cur rest =>
      simp only [relaxStep, List.mem_append] at hp
      rcases hp with hp | hp
      · exact h p (List.mem_cons_of_mem _ hp)
      · rcases fold_relaxNeighbor_queue_mem size _ cur
          GridDirection.cardinal_directions (g, []) p hp with h1 | h1
        · simp at h1
        · exact h1

/-- Iterated relaxation never increases any cell's best_cost. -/
theorem iterate_relax_best_le (size : ℤ × ℤ) (s : RelaxState) (n : ℕ) (x' y' : ℕ) :
    getBest ((relaxStep size)^[n] s).grid x' y' ≤ getBest s.grid x' y' := by
  induction n generalizing s with
  | zero => exact Nat.le_refl _
  | succ n ih =>
    rw [Function.iterate_succ_apply]
    exact Nat.le_trans (ih _) (relaxStep_best_le size s x' y')

/-- Iterated relaxation never changes any cell's cost. -/
theorem iterate_relax_cost (size : ℤ × ℤ) (s : RelaxState) (n : ℕ) (x' y' : ℕ) :
    getCost ((relaxStep size)^[n] s).grid x' y' = getCost s.grid x' y' := by
  induction n generalizing s with
  | zero => rfl
  | succ n ih =>
    rw [Function.iterate_succ_apply, ih, relaxStep_cost]

/-- Iterated relaxation never writes the best_cost of an impassable cell. -/
theorem iterate_relax_wall (size : ℤ × ℤ) (s : RelaxState) (n : ℕ) (X Y : ℕ)
    (h : getCost s.grid X Y = 255) :
    getBest ((relaxStep size)^[n] s).grid X Y = getBest s.grid X Y := by
  induction n generalizing s with
  | zero => rfl
  | succ n ih =>
    rw [Function.iterate_succ_apply, ih _ ((relaxStep_cost size s X Y).trans h),
      relaxStep_wall size s X Y h]

/-- Impassable indices never enter the work queue. -/
theorem iterate_relax_queue_wall (size : ℤ × ℤ) (s : RelaxState) (n : ℕ)
    (h : ∀ p ∈ s.queue, getCost s.grid p.1.toNat p.2.toNat ≠ 255) :
    ∀ p ∈ ((relaxStep size)^[n] s).queue,
      getCost ((relaxStep size)^[n] s).grid p.1.toNat p.2.toNat ≠ 255 := by
  induction n generalizing s with
  | zero => exact h
  | succ n ih =>
    rw [Function.iterate_succ_apply]
    exact ih _ (relaxStep_queue_wall size s h)

/-! Well-formedness of grid dimensions: preservation and the termination
measure argument. -/

theorem setCell_oob (g : List (List Cell)) (x y : ℕ) (c : Cell)
    (h : g.length ≤ y) : setCell g x y c = g := by
  unfold setCell
  exact List.set_eq_of_length_le h

theorem wfDims_setCell {size : ℤ × ℤ} {g : List (List Cell)} (x y : ℕ) (c : Cell)
    (hwf : wfDims size g) : wfDims size (setCell g x y c) := by
  by_cases hy : y < g.length
  · refine ⟨by rw [length_setCell]; exact hwf.1, ?_⟩
    intro row hrow
    rcases mem_of_mem_set hrow with h1 | h1
    · exact hwf.2 row h1
    · subst h1
      rw [List.length_set, List.getD_eq_getElem g [] hy]
      exact hwf.2 _ (List.getElem_mem hy)
  · rw [setCell_oob g x y c (Nat.le_of_not_lt hy)]
    exact hwf

theorem wall_valid_of_inBounds {size : ℤ × ℤ} {g : List (List Cell)} {p : ℤ × ℤ}
    (hwf : wfDims size g) (hin : inBoundsIdx size p) :
    p.2.toNat < g.length ∧ p.1.toNat < (g.getD p.2.toNat []).length := by
  obtain ⟨h1, h2, h3, h4⟩ := hin
  have hy : p.2.toNat < g.length := by rw [hwf.1]; omega
  refine ⟨hy, ?_⟩
  rw [List.getD_eq_getElem g [] hy, hwf.2 _ (List.getElem_mem hy)]
  omega

theorem sumBest_setBest (g : List (List Cell)) (x y v : ℕ)
    (hy : y < g.length) (hx : x < (g.getD y []).length) :
    sumBest (setBest g x y v) + getBest g x y = sumBest g + v := by
  have h := sumBest_setCell g x y { getCell g x y with best_cost := v } hy hx
  unfold setBest getBest
  exact h

theorem relaxNeighbor_wf_measure (size : ℤ × ℤ) (cb : ℕ) (cur : ℤ × ℤ)
    (acc : List (List Cell) × List (ℤ × ℤ)) (d : GridDirection)
    (hwf : wfDims size acc.1) :
    wfDims size (relaxNeighbor size cb cur acc d).1 ∧
      sumBest (relaxNeighbor size cb cur acc d).1 +
          (relaxNeighbor size cb cur acc d).2.length ≤
        sumBest acc.1 + acc.2.length := by
  unfold relaxNeighbor
  dsimp only
  split
  · split
    · exact ⟨hwf, Nat.le_refl _⟩
    · split
      · rename_i hin h2 h3
        constructor
        · exact wfDims_setCell _ _ _ hwf
        · obtain ⟨hy, hx⟩ := wall_valid_of_inBounds hwf hin
          have hsum := sumBest_setBest acc.1 (cur.1 + d.vector.1).toNat
            (cur.2 + d.vector.2).toNat
            (((getCell acc.1 (cur.1 + d.vector.1).toNat
              (cur.2 + d.vector.2).toNat).cost + cb) % 65536) hy hx
          have hgb : getBest acc.1 (cur.1 + d.vector.1).toNat (cur.2 + d.vector.2).toNat =
              (getCell acc.1 (cur.1 + d.vector.1).toNat (cur.2 + d.vector.2).toNat).best_cost :=
            rfl
          rw [hgb] at hsum
          simp only [List.length_append, List.length_cons, List.length_nil]
          omega
      · exact ⟨hwf, Nat.le_refl _⟩
  · exact ⟨hwf, Nat.le_refl _⟩

theorem fold_relaxNeighbor_wf_measure (size : ℤ × ℤ) (cb : ℕ) (cur : ℤ × ℤ)
    (L : List GridDirection) (acc : List (List Cell) × List (ℤ × ℤ))
    (hwf : wfDims size acc.1) :
    wfDims size (L.foldl (relaxNeighbor size cb cur) acc).1 ∧
      sumBest (L.foldl (relaxNeighbor size cb cur) acc).1 +
          (L.foldl (relaxNeighbor size cb cur) acc).2.length ≤
        sumBest acc.1 + acc.2.length := by
  induction L generalizing acc with
  | nil => exact ⟨hwf, Nat.le_refl _⟩
  | cons d L ih =>
    rw [List.foldl_cons]
    obtain ⟨hwf1, hm1⟩ := relaxNeighbor_wf_measure size cb cur acc d hwf
    obtain ⟨hwf2, hm2⟩ := ih _ hwf1
    exact ⟨hwf2, Nat.le_trans hm2 hm1⟩

theorem relaxStep_wf (size : ℤ × ℤ) (s : RelaxState) (hwf : wfDims size s.grid) :
    wfDims size (relaxStep size s).grid := by
  cases s with
  | mk g q =>
    cases q with
    | nil => exact hwf
    | cons cur rest =>
      exact (fold_relaxNeighbor_wf_measure size _ cur
        GridDirection.cardinal_directions (g, []) hwf).1

theorem relaxStep_measure_lt (size : ℤ × ℤ) (s : RelaxState)
    (hwf : wfDims size s.grid) (hne : s.queue ≠ []) :
    relaxMeasure (relaxStep size s) < relaxMeasure s := by
  cases s with
  | mk g q =>
    cases q with
    | nil => exact absurd rfl hne
    | cons cur rest =>
      have := (fold_relaxNeighbor_wf_measure size
        ((getCell g cur.1.toNat cur.2.toNat).best_cost) cur
        GridDirection.cardinal_directions (g, []) hwf).2
      unfold relaxMeasure relaxStep
      dsimp only
      simp only [List.length_append, List.length_cons, List.length_nil] at *
      omega

/-- With fuel at least the measure, the loop drains the queue. -/
theorem relaxLoop_empties (size : ℤ × ℤ) :
    ∀ (fuel : ℕ) (s : RelaxState), wfDims size s.grid → relaxMeasure s ≤ fuel →
      (relaxLoop size fuel s).queue = [] := by
  intro fuel
  induction fuel with
  | zero =>
    intro s hwf hm
    have : s.queue.length = 0 := by
      unfold relaxMeasure at hm
      omega
    exact List.length_eq_zero.mp this
  | succ fuel ih =>
    intro s hwf hm
    cases hq : s.queue with
    | nil =>
      cases s with
      | mk g q => cases hq; rfl
    | cons cur rest =>
      have hne : s.queue ≠ [] := by rw [hq]; exact List.cons_ne_nil _ _
      have hlt := relaxStep_measure_lt size s hwf hne
      have hstep : relaxLoop size (fuel + 1) s = relaxLoop size fuel (relaxStep size s) := by
        cases s with
        | mk g q => cases hq; rfl
      rw [hstep]
      exact ih _ (relaxStep_wf size s hwf) (by omega)

theorem dirStep_eq_scanStep (g : List (List Cell)) (size : ℤ × ℤ) (x y : ℕ) :
    dirStep g size x y = scanStep
      (fun d => inBoundsIdx size ((x : ℤ) + d.vector.1, (y : ℤ) + d.vector.2))
      (fun d => (getCell g ((x : ℤ) + d.vector.1).toNat
        ((y : ℤ) + d.vector.2).toNat).best_cost) := by
  funext acc d
  unfold dirStep scanStep
  rfl

section ScanFold

variable (P : GridDirection → Prop) [DecidablePred P] (B : GridDirection → ℕ)

theorem scan_fst_le (L : List GridDirection) (a : ℕ × GridDirection) :
    (L.foldl (scanStep P B) a).1 ≤ a.1 := by
  induction L generalizing a with
  | nil => exact Nat.le_refl _
  | cons d L ih =>
    rw [List.foldl_cons]
    refine Nat.le_trans (ih _) ?_
    unfold scanStep
    split
    · split
      · exact Nat.le_of_lt (by assumption)
      · exact Nat.le_refl _
    · exact Nat.le_refl _

theorem scan_fst_le_mem (L : List GridDirection) (a : ℕ × GridDirection) :
    ∀ d ∈ L, P d → (L.foldl (scanStep P B) a).1 ≤ B d := by
  induction L generalizing a with
  | nil => intro d hd; simp at hd
  | cons d0 L ih =>
    intro d hd hP
    rw [List.foldl_cons]
    rcases List.mem_cons.mp hd with hd | hd
    · subst hd
      refine Nat.le_trans (scan_fst_le P B L _) ?_
      unfold scanStep
      rw [if_pos hP]
      split
      · exact Nat.le_refl _
      · exact Nat.le_of_not_lt (by assumption)
    · exact ih _ d hd hP

theorem scan_result_cases (L : List GridDirection) (a : ℕ × GridDirection) :
    L.foldl (scanStep P B) a = a ∨
      ∃ d ∈ L, P d ∧ L.foldl (scanStep P B) a = (B d, d) ∧ B d < a.1 := by
  induction L generalizing a with
  | nil => exact Or.inl rfl
  | cons d0 L ih =>
    rw [List.foldl_cons]
    by_cases hP : P d0
    · by_cases hlt : B d0 < a.1
      · have hstep : scanStep P B a d0 = (B d0, d0) := by
          unfold scanStep
          rw [if_pos hP, if_pos hlt]
        rw [hstep]
        rcases ih (B d0, d0) with h | h
        · exact Or.inr ⟨d0, List.mem_cons_self _ _, hP, h, hlt⟩
        · obtain ⟨d, hd, hPd, heq, hblt⟩ := h
          exact Or.inr ⟨d, List.mem_cons_of_mem _ hd, hPd, heq,
            Nat.lt_trans hblt hlt⟩
      · have hstep : scanStep P B a d0 = a := by
          unfold scanStep
          rw [if_pos hP, if_neg hlt]
        rw [hstep]
        rcases ih a with h | h
        · exact Or.inl h
        · obtain ⟨d, hd, hPd, heq, hblt⟩ := h
          exact Or.inr ⟨d, List.mem_cons_of_mem _ hd, hPd, heq, hblt⟩
    · have hstep : scanStep P B a d0 = a := by
        unfold scanStep
        rw [if_neg hP]
      rw [hstep]
      rcases ih a with h | h
      · exact Or.inl h
      · obtain ⟨d, hd, hPd, heq, hblt⟩ := h
        exact Or.inr ⟨d, List.mem_cons_of_mem _ hd, hPd, heq, hblt⟩

theorem scan_fst_lt_of_snd_ne (L : List GridDirection) (a : ℕ × GridDirection)
    (h : (L.foldl (scanStep P B) a).2 ≠ a.2) :
    (L.foldl (scanStep P B) a).1 < a.1 := by
  rcases scan_result_cases P B L a with hc | hc
  · rw [hc] at h
    exact absurd rfl h
  · obtain ⟨d, hd, hPd, heq, hblt⟩ := hc
    rw [heq]
    exact hblt

theorem scan_none_iff (L : List GridDirection) (a : ℕ × GridDirection)
    (hL : GridDirection.none ∉ L) :
    (L.foldl (scanStep P B) a).2 = GridDirection.none ↔
      (a.2 = GridDirection.none ∧ ∀ d ∈ L, P d → ¬ B d < a.1) := by
  induction L generalizing a with
  | nil => simp
  | cons d0 L ih =>
    have hL0 : d0 ≠ GridDirection.none := by
      intro h
      exact hL (h ▸ List.mem_cons_self _ _)
    have hLt : GridDirection.none ∉ L := fun h => hL (List.mem_cons_of_mem _ h)
    rw [List.foldl_cons]
    by_cases hP : P d0
    · by_cases hlt : B d0 < a.1
      · have hstep : scanStep P B a d0 = (B d0, d0) := by
          unfold scanStep
          rw [if_pos hP, if_pos hlt]
        rw [hstep, ih _ hLt]
        constructor
        · intro h
          exact absurd h.1 hL0
        · intro h
          exact absurd hlt (h.2 d0 (List.mem_cons_self _ _) hP)
      · have hstep : scanStep P B a d0 = a := by
          unfold scanStep
          rw [if_pos hP, if_neg hlt]
        rw [hstep, ih _ hLt]
        constructor
        · intro h
          refine ⟨h.1, ?_⟩
          intro d hd hPd
          rcases List.mem_cons.mp hd with hd | hd
          · subst hd; exact hlt
          · exact h.2 d hd hPd
        · intro h
          exact ⟨h.1, fun d hd hPd => h.2 d (List.mem_cons_of_mem _ hd) hPd⟩
    · have hstep : scanStep P B a d0 = a := by
        unfold scanStep
        rw [if_neg hP]
      rw [hstep, ih _ hLt]
      constructor
      · intro h
        refine ⟨h.1, ?_⟩
        intro d hd hPd
        rcases List.mem_cons.mp hd with hd | hd
        · subst hd; exact absurd hPd hP
        · exact h.2 d hd hPd
      · intro h
        exact ⟨h.1, fun d hd hPd => h.2 d (List.mem_cons_of_mem _ hd) hPd⟩

theorem scan_first_wins (L : List GridDirection) (a : ℕ × GridDirection)
    (h : (L.foldl (scanStep P B) a).2 ≠ a.2) :
    ∃ L1 L2, L = L1 ++ (L.foldl (scanStep P B) a).2 :: L2 ∧
      ∀ e ∈ L1, P e → (L.foldl (scanStep P B) a).1 < B e := by
  induction L generalizing a with
  | nil => exact absurd rfl h
  | cons d0 L ih =>
    rw [List.foldl_cons] at h ⊢
    by_cases hP : P d0
    · by_cases hlt : B d0 < a.1
      · have hstep : scanStep P B a d0 = (B d0, d0) := by
          unfold scanStep
          rw [if_pos hP, if_pos hlt]
        rw [hstep] at h ⊢
        by_cases hsnd : (L.foldl (scanStep P B) (B d0, d0)).2 = d0
        · refine ⟨[], L, ?_, ?_⟩
          · rw [hsnd]
            rfl
          · intro e he
            simp at he
        · obtain ⟨L1, L2, hsplit, hfirst⟩ := ih (B d0, d0) hsnd
          refine ⟨d0 :: L1, L2, by rw [List.cons_append, ← hsplit], ?_⟩
          intro e he hPe
          rcases List.mem_cons.mp he with he | he
          · rw [he]
            exact scan_fst_lt_of_snd_ne P B L (B d0, d0) hsnd
          · exact hfirst e he hPe
      · have hstep : scanStep P B a d0 = a := by
          unfold scanStep
          rw [if_pos hP, if_neg hlt]
        rw [hstep] at h ⊢
        obtain ⟨L1, L2, hsplit, hfirst⟩ := ih a h
        refine ⟨d0 :: L1, L2, by rw [List.cons_append, ← hsplit], ?_⟩
        intro e he hPe
        rcases List.mem_cons.mp he with he | he
        · rw [he]
          exact Nat.lt_of_lt_of_le (scan_fst_lt_of_snd_ne P B L a h)
            (Nat.le_of_not_lt hlt)
        · exact hfirst e he hPe
    · have hstep : scanStep P B a d0 = a := by
        unfold scanStep
        rw [if_neg hP]
      rw [hstep] at h ⊢
      obtain ⟨L1, L2, hsplit, hfirst⟩ := ih a h
      refine ⟨d0 :: L1, L2, by rw [List.cons_append, ← hsplit], ?_⟩
      intro e he hPe
      rcases List.mem_cons.mp he with he | he
      · rw [he] at hPe
        exact absurd hPe hP
      · exact hfirst e he hPe

end ScanFold

/-! Pointwise characterization of the create_flowfield grid traversal:
direction writes never change best_cost or cost, so every cell ends up with
the direction selected by bestDirFold on the original grid. -/

theorem valid_of_wf {size : ℤ × ℤ} {g : List (List Cell)} (hwf : wfDims size g)
    {x y : ℕ} (hx : x < size.1.toNat) (hy : y < size.2.toNat) :
    y < g.length ∧ x < (g.getD y []).length := by
  have hyl : y < g.length := by rw [hwf.1]; exact hy
  refine ⟨hyl, ?_⟩
  rw [List.getD_eq_getElem g [] hyl, hwf.2 _ (List.getElem_mem hyl)]
  exact hx

theorem dirStep_congr {g1 g2 : List (List Cell)}
    (h : ∀ x' y', getBest g1 x' y' = getBest g2 x' y') (size : ℤ × ℤ) (x y : ℕ)
    (acc : ℕ × GridDirection) (d : GridDirection) :
    dirStep g1 size x y acc d = dirStep g2 size x y acc d := by
  unfold dirStep
  have hb := h ((x : ℤ) + d.vector.1).toNat ((y : ℤ) + d.vector.2).toNat
  unfold getBest at hb
  rw [hb]

theorem bestDirFold_congr {g1 g2 : List (List Cell)}
    (h : ∀ x' y', getBest g1 x' y' = getBest g2 x' y') (size : ℤ × ℤ) (x y : ℕ) :
    bestDirFold g1 size x y = bestDirFold g2 size x y := by
  unfold bestDirFold
  have hfold : ∀ (L : List GridDirection) a,
      L.foldl (dirStep g1 size x y) a = L.foldl (dirStep g2 size x y) a := by
    intro L
    induction L with
    | nil => intro a; rfl
    | cons d L ih =>
      intro a
      rw [List.foldl_cons, List.foldl_cons, dirStep_congr h, ih]
  rw [hfold, h x y]

theorem getBest_flowStep (size : ℤ × ℤ) (g : List (List Cell)) (p : ℕ × ℕ)
    (x' y' : ℕ) : getBest (flowStep size g p) x' y' = getBest g x' y' := by
  unfold flowStep
  exact getBest_setDir g p.1 p.2 _ x' y'

theorem getCost_flowStep (size : ℤ × ℤ) (g : List (List Cell)) (p : ℕ × ℕ)
    (x' y' : ℕ) : getCost (flowStep size g p) x' y' = getCost g x' y' := by
  unfold flowStep
  exact getCost_setDir g p.1 p.2 _ x' y'

theorem wf_flowStep {size : ℤ × ℤ} {g : List (List Cell)} (p : ℕ × ℕ)
    (hwf : wfDims size g) : wfDims size (flowStep size g p) := by
  unfold flowStep setDir
  exact wfDims_setCell _ _ _ hwf

theorem foldl_flowStep_char (size : ℤ × ℤ) (Ps : List (ℕ × ℕ))
    (g : List (List Cell)) (hwf : wfDims size g)
    (hPs : ∀ p ∈ Ps, p.1 < size.1.toNat ∧ p.2 < size.2.toNat) (x y : ℕ) :
    getCell (Ps.foldl (flowStep size) g) x y =
      if (x, y) ∈ Ps then
        { getCell g x y with best_direction := (bestDirFold g size x y).2 }
      else getCell g x y := by
  induction Ps generalizing g with
  | nil => simp
  | cons p0 rest ih =>
    have hp0 := hPs p0 (List.mem_cons_self _ _)
    have hval := valid_of_wf hwf hp0.1 hp0.2
    have hwf1 : wfDims size (flowStep size g p0) := wf_flowStep p0 hwf
    have hrest : ∀ p ∈ rest, p.1 < size.1.toNat ∧ p.2 < size.2.toNat :=
      fun p hp => hPs p (List.mem_cons_of_mem _ hp)
    rw [List.foldl_cons, ih _ hwf1 hrest]
    have hbd : bestDirFold (flowStep size g p0) size x y = bestDirFold g size x y :=
      bestDirFold_congr (fun u v => getBest_flowStep size g p0 u v) size x y
    have hcell : getCell (flowStep size g p0) x y =
        if p0.1 = x ∧ p0.2 = y then
          { getCell g x y with
              best_direction := (bestDirFold g size p0.1 p0.2).2 }
        else getCell g x y := by
      unfold flowStep setDir
      rw [getCell_setCell]
      by_cases hp : p0.1 = x ∧ p0.2 = y
      · rw [if_pos ⟨hp.1, hp.2, hval.1, hval.2⟩, if_pos hp, hp.1, hp.2]
      · have hcond : ¬(p0.1 = x ∧ p0.2 = y ∧ p0.2 < g.length ∧
            p0.1 < (g.getD p0.2 []).length) := fun hc => hp ⟨hc.1, hc.2.1⟩
        rw [if_neg hcond, if_neg hp]
    by_cases hmem : (x, y) ∈ rest
    · rw [if_pos hmem, if_pos (List.mem_cons_of_mem _ hmem), hbd, hcell]
      by_cases hp : p0.1 = x ∧ p0.2 = y
      · rw [if_pos hp]
      · rw [if_neg hp]
    · rw [if_neg hmem]
      by_cases hp : p0.1 = x ∧ p0.2 = y
      · have hpeq : p0 = (x, y) := by
          rcases p0 with ⟨a, b⟩
          simp only at hp
          rw [hp.1, hp.2]
        have hin : (x, y) ∈ p0 :: rest := by
          rw [hpeq]
          exact List.mem_cons_self _ _
        rw [if_pos hin, hcell, if_pos hp, hp.1, hp.2]
      · have hnm : (x, y) ∉ p0 :: rest := by
          intro hc
          rcases List.mem_cons.mp hc with hc | hc
          · exact hp ⟨by rw [← hc], by rw [← hc]⟩
          · exact hmem hc
        rw [if_neg hnm, hcell, if_neg hp]

theorem mem_allPositions (size : ℤ × ℤ) (p : ℕ × ℕ) :
    p ∈ allPositions size ↔ p.1 < size.1.toNat ∧ p.2 < size.2.toNat := by
  unfold allPositions
  rw [List.mem_flatten]
  constructor
  · rintro ⟨l, hl, hp⟩
    rw [List.mem_map] at hl
    obtain ⟨yy, hyy, rfl⟩ := hl
    rw [List.mem_map] at hp
    obtain ⟨xx, hxx, rfl⟩ := hp
    exact ⟨by simpa using List.mem_range.mp hxx, by simpa using List.mem_range.mp hyy⟩
  · rintro ⟨h1, h2⟩
    refine ⟨(List.range size.1.toNat).map (fun x => (x, p.2)), ?_, ?_⟩
    · exact List.mem_map.mpr ⟨p.2, List.mem_range.mpr h2, rfl⟩
    · refine List.mem_map.mpr ⟨p.1, List.mem_range.mpr h1, ?_⟩
      rcases p with ⟨a, b⟩
      rfl

/-- Every in-bounds cell of the create_flowfield result keeps its fields
except best_direction, which is the bestDirFold selection on the input. -/
theorem getCell_createFlowfieldGrid (size : ℤ × ℤ) (g : List (List Cell))
    (hwf : wfDims size g) (x y : ℕ) (hx : x < size.1.toNat) (hy : y < size.2.toNat) :
    getCell (createFlowfieldGrid size g) x y =
      { getCell g x y with best_direction := (bestDirFold g size x y).2 } := by
  unfold createFlowfieldGrid
  rw [foldl_flowStep_char size (allPositions size) g hwf
    (fun p hp => (mem_allPositions size p).mp hp) x y,
    if_pos ((mem_allPositions size (x, y)).mpr ⟨hx, hy⟩)]

theorem getBest_createFlowfieldGrid (size : ℤ × ℤ) (g : List (List Cell))
    (x y : ℕ) : getBest (createFlowfieldGrid size g) x y = getBest g x y := by
  unfold createFlowfieldGrid
  generalize allPositions size = Ps
  induction Ps generalizing g with
  | nil => rfl
  | cons p0 rest ih =>
    rw [List.foldl_cons, ih, getBest_flowStep]

theorem iterate_relax_wf (size : ℤ × ℤ) (s : RelaxState) (n : ℕ)
    (hwf : wfDims size s.grid) : wfDims size ((relaxStep size)^[n] s).grid := by
  induction n generalizing s with
  | zero => exact hwf
  | succ n ih =>
    rw [Function.iterate_succ_apply]
    exact ih _ (relaxStep_wf size s hwf)

/-! Grid.new cell contents and well-formedness. -/

theorem getD_map_range {α : Type} (n : ℕ) (f : ℕ → α) (d : α) (i : ℕ) (h : i < n) :
    ((List.range n).map f).getD i d = f i := by
  rw [List.getD_eq_getElem _ _ (by simpa using h)]
  simp

theorem wf_Grid_new (size : ℤ × ℤ) (d : ℚ) : wfDims size (Grid.new size d).grid := by
  constructor
  · simp [Grid.new]
  · intro row hrow
    simp only [Grid.new, List.mem_map] at hrow
    obtain ⟨y, hy, rfl⟩ := hrow
    simp

theorem getCell_Grid_new (size : ℤ × ℤ) (d : ℚ) (x y : ℕ)
    (hx : x < size.1.toNat) (hy : y < size.2.toNat) :
    getCell (Grid.new size d).grid x y =
      Cell.new
        ⟨d * (x : ℚ) + d / 2 + -((size.1 : ℚ) * d) / 2, 0,
         d * (y : ℚ) + d / 2 + -((size.2 : ℚ) * d) / 2⟩
        ((x : ℤ), (y : ℤ)) := by
  unfold getCell Grid.new
  dsimp only
  rw [getD_map_range _ _ _ _ hy, getD_map_range _ _ _ _ hx]

/-! Pointwise description of setCostsTo and the footprint membership. -/

theorem setCell_cons_succ (r : List Cell) (t : List (List Cell)) (x y : ℕ) (c : Cell) :
    setCell (r :: t) x (y + 1) c = r :: setCell t x y c := by
  simp [setCell, List.getD_cons_succ]

theorem row_length_setCell (g : List (List Cell)) (x0 y0 : ℕ) (c : Cell) (y : ℕ) :
    ((setCell g x0 y0 c).getD y []).length = (g.getD y []).length := by
  induction g generalizing y0 y with
  | nil => rfl
  | cons r t ih =>
    cases y0 with
    | zero =>
      cases y with
      | zero => simp [setCell]
      | succ y => simp [setCell]
    | succ y0 =>
      rw [setCell_cons_succ]
      cases y with
      | zero => rfl
      | succ y =>
        simp only [List.getD_cons_succ]
        exact ih y0 y

theorem wf_setCostsTo {size : ℤ × ℤ} (g : List (List Cell))
    (cells : List (ℤ × ℤ)) (v : ℕ) (hwf : wfDims size g) :
    wfDims size (setCostsTo g cells v) := by
  induction cells generalizing g with
  | nil => exact hwf
  | cons p rest ih =>
    exact ih _ (wfDims_setCell _ _ _ hwf)

theorem length_setCostsTo (g : List (List Cell)) (cells : List (ℤ × ℤ)) (v : ℕ) :
    (setCostsTo g cells v).length = g.length := by
  induction cells generalizing g with
  | nil => rfl
  | cons p rest ih =>
    unfold setCostsTo at ih ⊢
    rw [List.foldl_cons, ih, length_setCell]

theorem row_length_setCostsTo (g : List (List Cell)) (cells : List (ℤ × ℤ))
    (v : ℕ) (y : ℕ) :
    ((setCostsTo g cells v).getD y []).length = (g.getD y []).length := by
  induction cells generalizing g with
  | nil => rfl
  | cons p rest ih =>
    unfold setCostsTo at ih ⊢
    rw [List.foldl_cons, ih, row_length_setCell]

theorem getCell_setCostsTo {size : ℤ × ℤ} (g : List (List Cell))
    (cells : List (ℤ × ℤ)) (v : ℕ) (hwf : wfDims size g)
    (hin : ∀ p ∈ cells, inBoundsIdx size p) (x y : ℕ) :
    getCell (setCostsTo g cells v) x y =
      if ∃ p ∈ cells, p.1.toNat = x ∧ p.2.toNat = y
      then { getCell g x y with cost := v }
      else getCell g x y := by
  induction cells generalizing g with
  | nil => simp [setCostsTo]
  | cons p0 rest ih =>
    have hin0 := hin p0 (List.mem_cons_self _ _)
    have hval : p0.2.toNat < g.length ∧ p0.1.toNat < (g.getD p0.2.toNat []).length := by
      refine valid_of_wf hwf ?_ ?_
      · obtain ⟨h1, h2, h3, h4⟩ := hin0
        omega
      · obtain ⟨h1, h2, h3, h4⟩ := hin0
        omega
    have hstep : setCostsTo g (p0 :: rest) v = setCostsTo
        (setCell g p0.1.toNat p0.2.toNat
          { getCell g p0.1.toNat p0.2.toNat with cost := v }) rest v := by
      unfold setCostsTo
      rw [List.foldl_cons]
    have hwf1 : wfDims size (setCell g p0.1.toNat p0.2.toNat
        { getCell g p0.1.toNat p0.2.toNat with cost := v }) :=
      wfDims_setCell _ _ _ hwf
    rw [hstep, ih _ hwf1 (fun p hp => hin p (List.mem_cons_of_mem _ hp))]
    have hcell : getCell (setCell g p0.1.toNat p0.2.toNat
        { getCell g p0.1.toNat p0.2.toNat with cost := v }) x y =
        if p0.1.toNat = x ∧ p0.2.toNat = y
        then { getCell g x y with cost := v }
        else getCell g x y := by
      rw [getCell_setCell]
      by_cases hp : p0.1.toNat = x ∧ p0.2.toNat = y
      · rw [if_pos ⟨hp.1, hp.2, hval.1, hval.2⟩, if_pos hp, hp.1, hp.2]
      · have hcond : ¬(p0.1.toNat = x ∧ p0.2.toNat = y ∧ p0.2.toNat < g.length ∧
            p0.1.toNat < (g.getD p0.2.toNat []).length) := fun hc => hp ⟨hc.1, hc.2.1⟩
        rw [if_neg hcond, if_neg hp]
    by_cases hex : ∃ p ∈ rest, p.1.toNat = x ∧ p.2.toNat = y
    · have hex' : ∃ p ∈ p0 :: rest, p.1.toNat = x ∧ p.2.toNat = y := by
        obtain ⟨p, hp, hpe⟩ := hex
        exact ⟨p, List.mem_cons_of_mem _ hp, hpe⟩
      rw [if_pos hex, if_pos hex', hcell]
      by_cases hp : p0.1.toNat = x ∧ p0.2.toNat = y
      · rw [if_pos hp]
      · rw [if_neg hp]
    · rw [if_neg hex, hcell]
      by_cases hp : p0.1.toNat = x ∧ p0.2.toNat = y
      · have hex' : ∃ p ∈ p0 :: rest, p.1.toNat = x ∧ p.2.toNat = y :=
          ⟨p0, List.mem_cons_self _ _, hp⟩
        rw [if_pos hp, if_pos hex']
      · have hex' : ¬∃ p ∈ p0 :: rest, p.1.toNat = x ∧ p.2.toNat = y := by
          intro hc
          obtain ⟨p, hpm, hpe⟩ := hc
          rcases List.mem_cons.mp hpm with hpm | hpm
          · exact hp (hpm ▸ hpe)
          · exact hex ⟨p, hpm, hpe⟩
        rw [if_neg hp, if_neg hex']

theorem footprint_inBounds (self : Grid) (t : Vec3q) (s : ℚ × ℚ) :
    ∀ p ∈ self.for_each_cell_in_obj_footprint t s, inBoundsIdx self.size p := by
  intro p hp
  unfold Grid.for_each_cell_in_obj_footprint at hp
  rw [List.mem_flatten] at hp
  obtain ⟨l, hl, hpl⟩ := hp
  rw [List.mem_map] at hl
  obtain ⟨y, hy, rfl⟩ := hl
  rw [List.mem_filterMap] at hpl
  obtain ⟨x, hx, hfx⟩ := hpl
  by_cases hc : 0 ≤ x ∧ x < self.size.1 ∧ 0 ≤ y ∧ y < self.size.2
  · rw [if_pos hc] at hfx
    cases hfx
    exact hc
  · rw [if_neg hc] at hfx
    cases hfx

/-- Nested-list extensionality through shapes and getCell. -/
theorem grid_list_ext {g1 g2 : List (List Cell)} (hlen : g1.length = g2.length)
    (hrow : ∀ y, (g1.getD y []).length = (g2.getD y []).length)
    (hcell : ∀ x y, getCell g1 x y = getCell g2 x y) : g1 = g2 := by
  apply List.ext_get hlen
  intro i h1 h2
  apply List.ext_get
  · have := hrow i
    rw [List.getD_eq_getElem g1 [] h1, List.getD_eq_getElem g2 [] h2] at this
    simpa using this
  · intro j hj1 hj2
    have := hcell j i
    unfold getCell at this
    rw [List.getD_eq_getElem g1 [] h1, List.getD_eq_getElem g2 [] h2] at this
    rw [List.getD_eq_getElem _ _ (by simpa using hj1),
      List.getD_eq_getElem _ _ (by simpa using hj2)] at this
    simpa using this

theorem cell_cost_update_self {c : Cell} {v : ℕ} (h : c.cost = v) :
    { c with cost := v } = c := by
  cases c
  simp only at h
  rw [h]

theorem getCell_oob (g : List (List Cell)) (x y : ℕ)
    (h : ¬(y < g.length ∧ x < (g.getD y []).length)) :
    getCell g x y = Cell.defaultCell := by
  unfold getCell
  by_cases hy : y < g.length
  · have hx : (g.getD y []).length ≤ x := by
      by_contra hc
      exact h ⟨hy, Nat.lt_of_not_le hc⟩
    exact List.getD_eq_default _ _ hx
  · rw [List.getD_eq_default _ _ (Nat.le_of_not_lt hy)]
    rfl

/-- C1: on each pop the relaxation examines the four cardinal in-bounds
neighbors, skips impassable ones, and lowers a neighbor's
integration_distance exactly when the candidate is strictly smaller;
consequently no cell's integration_distance ever increases across any
number of loop iterations (later iterates are pointwise below earlier
ones). -/
theorem claim_C1_relaxation_monotone (size : ℤ × ℤ) (s : RelaxState)
    (n k : ℕ) (x y : ℕ) :
    getBest ((relaxStep size)^[k + n] s).grid x y ≤
      getBest ((relaxStep size)^[n] s).grid x y := by
  rw [Function.iterate_add_apply]
  exact iterate_relax_best_le size _ k x y

/-- C2: for a well-formed grid and an in-bounds destination, the wavefront
relaxation terminates: some number of steps empties the FIFO queue, and the
fuel chosen by create_integration_field (measure + 1) already suffices,
because the measure (total best_cost plus queue length) strictly decreases
on every iteration. -/
theorem claim_C2_relaxation_terminates (grid : Grid) (dest : Cell)
    (hwf : grid.wellFormed) (hin : inBoundsIdx grid.size dest.grid_idx) :
    (relaxLoop grid.size
        (relaxMeasure (integrationInitState grid.grid dest.grid_idx) + 1)
        (integrationInitState grid.grid dest.grid_idx)).queue = [] ∧
      ∃ n, ((relaxStep grid.size)^[n]
        (integrationInitState grid.grid dest.grid_idx)).queue = [] := by
  have hwf0 : wfDims grid.size (integrationInitState grid.grid dest.grid_idx).grid :=
    wfDims_setCell _ _ _ hwf.2.2.1
  have hloop := relaxLoop_empties grid.size
    (relaxMeasure (integrationInitState grid.grid dest.grid_idx) + 1)
    (integrationInitState grid.grid dest.grid_idx) hwf0 (Nat.le_succ _)
  refine ⟨hloop, ⟨relaxMeasure (integrationInitState grid.grid dest.grid_idx) + 1, ?_⟩⟩
  rw [← relaxLoop_eq_iterate]
  exact hloop

theorem claim_C2_witness :
    (Grid.new ((1 : ℤ), (1 : ℤ)) 1).wellFormed ∧
    inBoundsIdx (Grid.new ((1 : ℤ), (1 : ℤ)) 1).size
      (getCell (Grid.new ((1 : ℤ), (1 : ℤ)) 1).grid 0 0).grid_idx ∧
    ((relaxLoop (Grid.new ((1 : ℤ), (1 : ℤ)) 1).size
        (relaxMeasure (integrationInitState (Grid.new ((1 : ℤ), (1 : ℤ)) 1).grid
          (getCell (Grid.new ((1 : ℤ), (1 : ℤ)) 1).grid 0 0).grid_idx) + 1)
        (integrationInitState (Grid.new ((1 : ℤ), (1 : ℤ)) 1).grid
          (getCell (Grid.new ((1 : ℤ), (1 : ℤ)) 1).grid 0 0).grid_idx)).queue = [] ∧
      ∃ n, ((relaxStep (Grid.new ((1 : ℤ), (1 : ℤ)) 1).size)^[n]
        (integrationInitState (Grid.new ((1 : ℤ), (1 : ℤ)) 1).grid
          (getCell (Grid.new ((1 : ℤ), (1 : ℤ)) 1).grid 0 0).grid_idx)).queue = []) :=
  ⟨by decide, by decide,
    claim_C2_relaxation_terminates (Grid.new ((1 : ℤ), (1 : ℤ)) 1)
      (getCell (Grid.new ((1 : ℤ), (1 : ℤ)) 1).grid 0 0) (by decide) (by decide)⟩

/-- C5 amended: Grid::new never fails; it is total and returns, for every
size, a grid of size.y rows each holding size.x cells (so size.x * size.y
cells in total, and a zero dimension yields an empty grid: it is silently
accepted, not rejected and not clamped). -/
theorem claim_C5_construction_total (size : ℤ × ℤ) (d : ℚ) :
    (Grid.new size d).grid.map List.length =
        List.replicate size.2.toNat size.1.toNat ∧
      ((Grid.new size d).grid.map List.length).sum =
        size.2.toNat * size.1.toNat := by
  have h1 : (Grid.new size d).grid.map List.length =
      List.replicate size.2.toNat size.1.toNat := by
    unfold Grid.new
    dsimp only
    rw [List.map_map]
    apply List.eq_replicate_iff.mpr
    constructor
    · simp
    · intro b hb
      rw [List.mem_map] at hb
      obtain ⟨a, ha, rfl⟩ := hb
      simp
  refine ⟨h1, ?_⟩
  rw [h1]
  simp [List.sum_replicate, Nat.mul_comm]

/-- C5 counterexample: construction with a zero-sized x dimension does not
fail: Grid::new (0, 5) returns an ordinary Grid value holding five rows of
zero cells, so a zero-sized dimension is accepted rather than rejected. -/
theorem claim_C5_counterexample :
    (Grid.new ((0 : ℤ), (5 : ℤ)) 1).size = ((0 : ℤ), (5 : ℤ)) ∧
    (Grid.new ((0 : ℤ), (5 : ℤ)) 1).grid.map List.length =
      List.replicate 5 0 := by
  constructor
  · rfl
  · decide

/-- C8: increase_cost saturates at 255 and never decreases the cost, and
from the baseline cost 1 two raises by 200 end exactly at 255. -/
theorem claim_C8_increase_cost_saturating (c : Cell) (amount : ℕ)
    (hc : c.cost ≤ 255) (ha : amount ≤ 255) :
    (c.increase_cost amount).cost ≤ 255 ∧
      c.cost ≤ (c.increase_cost amount).cost ∧
      (c.cost = 1 → ((c.increase_cost 200).increase_cost 200).cost = 255) := by
  refine ⟨?_, ?_, ?_⟩
  · unfold Cell.increase_cost
    split
    · exact hc
    · split
      · simpa using (by assumption : c.cost + amount ≤ 255)
      · simp
  · unfold Cell.increase_cost
    split
    · exact Nat.le_refl _
    · split
      · simp
      · simpa using hc
  · intro h1
    have h0 : ∀ c' : Cell, c'.cost = 1 → (c'.increase_cost 200).cost = 201 := by
      intro c' hcc
      unfold Cell.increase_cost
      rw [if_neg (by omega), if_pos (by omega)]
      simp [hcc]
    have h3 : ∀ c' : Cell, c'.cost = 201 → (c'.increase_cost 200).cost = 255 := by
      intro c' hcc
      unfold Cell.increase_cost
      rw [if_neg (by omega), if_neg (by omega)]
    exact h3 _ (h0 c h1)

theorem claim_C8_witness :
    (Cell.new ⟨0, 0, 0⟩ (0, 0)).cost ≤ 255 ∧ (200 : ℕ) ≤ 255 ∧
    (((Cell.new ⟨0, 0, 0⟩ (0, 0)).increase_cost 200).cost ≤ 255 ∧
      (Cell.new ⟨0, 0, 0⟩ (0, 0)).cost ≤
        ((Cell.new ⟨0, 0, 0⟩ (0, 0)).increase_cost 200).cost ∧
      ((Cell.new ⟨0, 0, 0⟩ (0, 0)).cost = 1 →
        (((Cell.new ⟨0, 0, 0⟩ (0, 0)).increase_cost 200).increase_cost 200).cost = 255)) :=
  ⟨by decide, by decide,
    claim_C8_increase_cost_saturating (Cell.new ⟨0, 0, 0⟩ (0, 0)) 200
      (by decide) (by decide)⟩

/-- C3 amended: impassable cells are walls in a stronger sense than the
claim states: a cost-255 cell never has its integration_distance written at
all (the relaxation skips impassable neighbors before updating them), and
impassable indices never enter the work queue, so distance is never
propagated into or out of a wall.  Any cell whose cost is 255 in the seeded
state (hence any non-destination impassable cell) keeps its snapshot
best_cost, and every queued index is passable, throughout the loop. -/
theorem claim_C3_walls_block_propagation (grid : Grid) (dest : Cell) (n : ℕ)
    (x y : ℕ)
    (hcost : getCost (integrationInitState grid.grid dest.grid_idx).grid x y = 255) :
    getBest ((relaxStep grid.size)^[n]
        (integrationInitState grid.grid dest.grid_idx)).grid x y =
      getBest (integrationInitState grid.grid dest.grid_idx).grid x y ∧
    ∀ p ∈ ((relaxStep grid.size)^[n]
        (integrationInitState grid.grid dest.grid_idx)).queue,
      getCost ((relaxStep grid.size)^[n]
        (integrationInitState grid.grid dest.grid_idx)).grid p.1.toNat p.2.toNat ≠ 255 := by
  constructor
  · exact iterate_relax_wall grid.size _ n x y hcost
  · apply iterate_relax_queue_wall
    intro p hp
    have hpd : p = dest.grid_idx := by
      simpa [integrationInitState] using hp
    rw [hpd]
    unfold integrationInitState getCost
    dsimp only
    rw [getCell_setCell]
    by_cases hv : dest.grid_idx.2.toNat < grid.grid.length ∧
        dest.grid_idx.1.toNat < (grid.grid.getD dest.grid_idx.2.toNat []).length
    · rw [if_pos ⟨rfl, rfl, hv.1, hv.2⟩]
      simp
    · rw [if_neg (fun hc => hv ⟨hc.2.2.1, hc.2.2.2⟩),
        getCell_oob grid.grid _ _ hv]
      simp [Cell.defaultCell]

/-- C3 counterexample: in the 2 x 1 grid with an impassable right cell, the
impassable cell is cardinally adjacent to the reached passable destination
(best_cost 0), yet it ends with the unreached sentinel 65535, not a finite
distance: the relaxation skips impassable neighbors before writing them, so
an impassable cell never receives a finite integration_distance, contrary
to the claim. -/
theorem claim_C3_counterexample :
    getCost wallFF.grid 1 0 = 255 ∧
    getBest wallFF.grid 0 0 = 0 ∧
    ¬ getBest wallFF.grid 1 0 < 65535 := by
  decide

/-- Shared helper: a cell's computed best_direction is None exactly when no
in-bounds neighbor (over the eight compass directions) has a strictly
smaller integration_distance than the cell's own. -/
theorem bestDirFold_eq_scan (g : List (List Cell)) (size : ℤ × ℤ) (x y : ℕ) :
    bestDirFold g size x y = GridDirection.all_directions.foldl
      (scanStep
        (fun d => inBoundsIdx size ((x : ℤ) + d.vector.1, (y : ℤ) + d.vector.2))
        (fun d => getBest g ((x : ℤ) + d.vector.1).toNat
          ((y : ℤ) + d.vector.2).toNat))
      (getBest g x y, GridDirection.none) := by
  unfold bestDirFold
  rw [dirStep_eq_scanStep]
  rfl

theorem flowDir_none_iff (size : ℤ × ℤ) (g : List (List Cell))
    (hwf : wfDims size g) (x y : ℕ) (hx : x < size.1.toNat)
    (hy : y < size.2.toNat) :
    (getCell (createFlowfieldGrid size g) x y).best_direction =
        GridDirection.none ↔
      ∀ d ∈ GridDirection.all_directions,
        inBoundsIdx size ((x : ℤ) + d.vector.1, (y : ℤ) + d.vector.2) →
          ¬ getBest g ((x : ℤ) + d.vector.1).toNat ((y : ℤ) + d.vector.2).toNat
              < getBest g x y := by
  rw [getCell_createFlowfieldGrid size g hwf x y hx hy]
  show (bestDirFold g size x y).2 = GridDirection.none ↔ _
  rw [bestDirFold_eq_scan]
  rw [scan_none_iff _ _ _ _ (by decide)]
  constructor
  · intro h
    exact h.2
  · intro h
    exact ⟨rfl, h⟩

/-- C4: the direction pass selects, for each cell, the direction of the
in-bounds neighbor with the strictly smallest integration_distance when one
improves on the cell's own distance (ties resolved deterministically by the
first direction in the enumeration order of all_directions), None when no
in-bounds neighbor improves; and after the full two-pass pipeline the
destination cell ends with integration_distance 0 and best_direction None. -/
theorem claim_C4_direction_field :
    (∀ (size : ℤ × ℤ) (g : List (List Cell)), wfDims size g →
      ∀ x y : ℕ, x < size.1.toNat → y < size.2.toNat →
        (((getCell (createFlowfieldGrid size g) x y).best_direction =
              GridDirection.none ↔
            (∀ d ∈ GridDirection.all_directions,
              inBoundsIdx size ((x : ℤ) + d.vector.1, (y : ℤ) + d.vector.2) →
                ¬ getBest g ((x : ℤ) + d.vector.1).toNat
                    ((y : ℤ) + d.vector.2).toNat < getBest g x y)) ∧
          (∀ d, (getCell (createFlowfieldGrid size g) x y).best_direction = d →
            d ≠ GridDirection.none →
              (d ∈ GridDirection.all_directions ∧
               inBoundsIdx size ((x : ℤ) + d.vector.1, (y : ℤ) + d.vector.2) ∧
               getBest g ((x : ℤ) + d.vector.1).toNat ((y : ℤ) + d.vector.2).toNat
                   < getBest g x y ∧
               (∀ e ∈ GridDirection.all_directions,
                 inBoundsIdx size ((x : ℤ) + e.vector.1, (y : ℤ) + e.vector.2) →
                   getBest g ((x : ℤ) + d.vector.1).toNat
                       ((y : ℤ) + d.vector.2).toNat ≤
                     getBest g ((x : ℤ) + e.vector.1).toNat
                       ((y : ℤ) + e.vector.2).toNat) ∧
               (∃ L1 L2, GridDirection.all_directions = L1 ++ d :: L2 ∧
                 ∀ e ∈ L1,
                   inBoundsIdx size ((x : ℤ) + e.vector.1, (y : ℤ) + e.vector.2) →
                     getBest g ((x : ℤ) + d.vector.1).toNat
                         ((y : ℤ) + d.vector.2).toNat <
                       getBest g ((x : ℤ) + e.vector.1).toNat
                         ((y : ℤ) + e.vector.2).toNat))))) ∧
    (∀ (grid : Grid) (dest : Cell) (units : List ℕ), grid.wellFormed →
      inBoundsIdx grid.size dest.grid_idx →
        (getBest ((((FlowField.new grid.cell_radius grid.size
              units).create_integration_field grid dest).create_flowfield).grid)
            dest.grid_idx.1.toNat dest.grid_idx.2.toNat = 0 ∧
         (getCell ((((FlowField.new grid.cell_radius grid.size
              units).create_integration_field grid dest).create_flowfield).grid)
            dest.grid_idx.1.toNat dest.grid_idx.2.toNat).best_direction =
          GridDirection.none)) := by
  constructor
  · intro size g hwf x y hx hy
    constructor
    · exact flowDir_none_iff size g hwf x y hx hy
    · intro d hd hdne
      have hd' : (bestDirFold g size x y).2 = d := by
        rw [getCell_createFlowfieldGrid size g hwf x y hx hy] at hd
        exact hd
      rw [bestDirFold_eq_scan] at hd'
      rcases scan_result_cases
          (fun d => inBoundsIdx size ((x : ℤ) + d.vector.1, (y : ℤ) + d.vector.2))
          (fun d => getBest g ((x : ℤ) + d.vector.1).toNat
            ((y : ℤ) + d.vector.2).toNat)
          GridDirection.all_directions (getBest g x y, GridDirection.none)
        with hc | hc
      · rw [hc] at hd'
        exact absurd hd'.symm hdne
      · obtain ⟨d', hmem, hP, heq, hlt⟩ := hc
        have hdd : d' = d := by
          rw [heq] at hd'
          exact hd'
        rw [hdd] at hmem hP heq hlt
        refine ⟨hmem, hP, hlt, ?_, ?_⟩
        · intro e he hPe
          have := scan_fst_le_mem
            (fun d => inBoundsIdx size ((x : ℤ) + d.vector.1, (y : ℤ) + d.vector.2))
            (fun d => getBest g ((x : ℤ) + d.vector.1).toNat
              ((y : ℤ) + d.vector.2).toNat)
            GridDirection.all_directions (getBest g x y, GridDirection.none)
            e he hPe
          rw [heq] at this
          exact this
        · have hsnd : (GridDirection.all_directions.foldl
              (scanStep
                (fun d => inBoundsIdx size ((x : ℤ) + d.vector.1, (y : ℤ) + d.vector.2))
                (fun d => getBest g ((x : ℤ) + d.vector.1).toNat
                  ((y : ℤ) + d.vector.2).toNat))
              (getBest g x y, GridDirection.none)).2 ≠
              (getBest g x y, GridDirection.none).2 := by
            rw [heq]
            exact hdne
          obtain ⟨L1, L2, hsplit, hfirst⟩ := scan_first_wins _ _ _ _ hsnd
          rw [heq] at hsplit hfirst
          exact ⟨L1, L2, hsplit, hfirst⟩
  · intro grid dest units hwf hin
    have hwfg : wfDims grid.size grid.grid := hwf.2.2.1
    have hdx : dest.grid_idx.1.toNat < grid.size.1.toNat := by
      obtain ⟨h1, h2, h3, h4⟩ := hin
      omega
    have hdy : dest.grid_idx.2.toNat < grid.size.2.toNat := by
      obtain ⟨h1, h2, h3, h4⟩ := hin
      omega
    have hval := valid_of_wf hwfg hdx hdy
    have hbest0 : getBest (integrationInitState grid.grid dest.grid_idx).grid
        dest.grid_idx.1.toNat dest.grid_idx.2.toNat = 0 := by
      unfold integrationInitState getBest
      dsimp only
      rw [getCell_setCell_self _ _ _ _ hval.1 hval.2]
    have hwfs0 : wfDims grid.size (integrationInitState grid.grid dest.grid_idx).grid :=
      wfDims_setCell _ _ _ hwfg
    have hloopeq := relaxLoop_eq_iterate grid.size
      (relaxMeasure (integrationInitState grid.grid dest.grid_idx) + 1)
      (integrationInitState grid.grid dest.grid_idx)
    have hbestF : getBest (relaxLoop grid.size
        (relaxMeasure (integrationInitState grid.grid dest.grid_idx) + 1)
        (integrationInitState grid.grid dest.grid_idx)).grid
        dest.grid_idx.1.toNat dest.grid_idx.2.toNat = 0 := by
      rw [hloopeq]
      have hle := iterate_relax_best_le grid.size
        (integrationInitState grid.grid dest.grid_idx)
        (relaxMeasure (integrationInitState grid.grid dest.grid_idx) + 1)
        dest.grid_idx.1.toNat dest.grid_idx.2.toNat
      omega
    have hwfsF : wfDims grid.size (relaxLoop grid.size
        (relaxMeasure (integrationInitState grid.grid dest.grid_idx) + 1)
        (integrationInitState grid.grid dest.grid_idx)).grid := by
      rw [hloopeq]
      exact iterate_relax_wf _ _ _ hwfs0
    constructor
    · show getBest (createFlowfieldGrid grid.size (relaxLoop grid.size
          (relaxMeasure (integrationInitState grid.grid dest.grid_idx) + 1)
          (integrationInitState grid.grid dest.grid_idx)).grid)
          dest.grid_idx.1.toNat dest.grid_idx.2.toNat = 0
      rw [getBest_createFlowfieldGrid]
      exact hbestF
    · show (getCell (createFlowfieldGrid grid.size (relaxLoop grid.size
          (relaxMeasure (integrationInitState grid.grid dest.grid_idx) + 1)
          (integrationInitState grid.grid dest.grid_idx)).grid)
          dest.grid_idx.1.toNat dest.grid_idx.2.toNat).best_direction =
          GridDirection.none
      apply (flowDir_none_iff grid.size _ hwfsF _ _ hdx hdy).mpr
      intro d hd hP hlt
      rw [hbestF] at hlt
      exact Nat.not_lt_zero _ hlt

theorem claim_C4_witness :
    wfDims ((1 : ℤ), (1 : ℤ)) (Grid.new ((1 : ℤ), (1 : ℤ)) 1).grid ∧
    (Grid.new ((1 : ℤ), (1 : ℤ)) 1).wellFormed ∧
    inBoundsIdx (Grid.new ((1 : ℤ), (1 : ℤ)) 1).size
      (getCell (Grid.new ((1 : ℤ), (1 : ℤ)) 1).grid 0 0).grid_idx ∧
    (getCell (createFlowfieldGrid ((1 : ℤ), (1 : ℤ))
        (Grid.new ((1 : ℤ), (1 : ℤ)) 1).grid) 0 0).best_direction =
      GridDirection.none ∧
    getBest (((((FlowField.new (Grid.new ((1 : ℤ), (1 : ℤ)) 1).cell_radius
        (Grid.new ((1 : ℤ), (1 : ℤ)) 1).size []).create_integration_field
        (Grid.new ((1 : ℤ), (1 : ℤ)) 1)
        (getCell (Grid.new ((1 : ℤ), (1 : ℤ)) 1).grid 0 0)).create_flowfield).grid))
      (getCell (Grid.new ((1 : ℤ), (1 : ℤ)) 1).grid 0 0).grid_idx.1.toNat
      (getCell (Grid.new ((1 : ℤ), (1 : ℤ)) 1).grid 0 0).grid_idx.2.toNat = 0 :=
  ⟨by decide, by decide, by decide,
    ((claim_C4_direction_field.1 ((1 : ℤ), (1 : ℤ))
        (Grid.new ((1 : ℤ), (1 : ℤ)) 1).grid (by decide) 0 0 (by decide)
        (by decide)).1).mpr (by decide),
    (claim_C4_direction_field.2 (Grid.new ((1 : ℤ), (1 : ℤ)) 1)
        (getCell (Grid.new ((1 : ℤ), (1 : ℤ)) 1).grid 0 0) [] (by decide)
        (by decide)).1⟩

/-- C10: a cell's best_direction ends as None exactly when no in-bounds
neighbor has a strictly smaller integration_distance; in particular a cell
left at the unreached sentinel 65535 that has an in-bounds neighbor with a
finite distance is assigned a non-None best_direction pointing at such a
neighbor: the assigned direction's own neighbor is in bounds and holds a
finite (below-sentinel) integration_distance. -/
theorem claim_C10_unreached_cells_point_at_reached (size : ℤ × ℤ)
    (g : List (List Cell)) (hwf : wfDims size g) (x y : ℕ)
    (hx : x < size.1.toNat) (hy : y < size.2.toNat) :
    ((getCell (createFlowfieldGrid size g) x y).best_direction =
        GridDirection.none ↔
      ∀ d ∈ GridDirection.all_directions,
        inBoundsIdx size ((x : ℤ) + d.vector.1, (y : ℤ) + d.vector.2) →
          ¬ getBest g ((x : ℤ) + d.vector.1).toNat ((y : ℤ) + d.vector.2).toNat
              < getBest g x y) ∧
    (getBest g x y = 65535 →
      (∃ d ∈ GridDirection.all_directions,
        inBoundsIdx size ((x : ℤ) + d.vector.1, (y : ℤ) + d.vector.2) ∧
          getBest g ((x : ℤ) + d.vector.1).toNat ((y : ℤ) + d.vector.2).toNat
            < 65535) →
      ∃ d, (getCell (createFlowfieldGrid size g) x y).best_direction = d ∧
        d ≠ GridDirection.none ∧
        inBoundsIdx size ((x : ℤ) + d.vector.1, (y : ℤ) + d.vector.2) ∧
        getBest g ((x : ℤ) + d.vector.1).toNat ((y : ℤ) + d.vector.2).toNat
          < 65535) := by
  refine ⟨flowDir_none_iff size g hwf x y hx hy, ?_⟩
  intro hsent hex
  have hchar := getCell_createFlowfieldGrid size g hwf x y hx hy
  have hne : (getCell (createFlowfieldGrid size g) x y).best_direction ≠
      GridDirection.none := by
    intro hnone
    obtain ⟨d, hd, hP, hlt⟩ := hex
    have hall := (flowDir_none_iff size g hwf x y hx hy).mp hnone d hd hP
    rw [hsent] at hall
    exact hall hlt
  have hd2 : (getCell (createFlowfieldGrid size g) x y).best_direction =
      (bestDirFold g size x y).2 := by
    rw [hchar]
  have hne' : (bestDirFold g size x y).2 ≠ GridDirection.none := by
    rw [← hd2]
    exact hne
  rw [bestDirFold_eq_scan] at hne'
  rcases scan_result_cases
      (fun d => inBoundsIdx size ((x : ℤ) + d.vector.1, (y : ℤ) + d.vector.2))
      (fun d => getBest g ((x : ℤ) + d.vector.1).toNat
        ((y : ℤ) + d.vector.2).toNat)
      GridDirection.all_directions (getBest g x y, GridDirection.none)
    with hc | hc
  · rw [hc] at hne'
    exact absurd rfl hne'
  · obtain ⟨d', hmem, hP', heq, hlt'⟩ := hc
    have hdd : (bestDirFold g size x y).2 = d' := by
      rw [bestDirFold_eq_scan, heq]
    have hlt'' : getBest g ((x : ℤ) + d'.vector.1).toNat
        ((y : ℤ) + d'.vector.2).toNat < getBest g x y := hlt'
    rw [hsent] at hlt''
    refine ⟨(bestDirFold g size x y).2, hd2, ?_, ?_, ?_⟩
    · rw [← hd2]
      exact hne
    · rw [hdd]
      exact hP'
    · rw [hdd]
      exact hlt''

theorem claim_C10_witness :
    wfDims ((2 : ℤ), (1 : ℤ)) c10Grid ∧
    getBest c10Grid 0 0 = 65535 ∧
    ∃ d, (getCell (createFlowfieldGrid ((2 : ℤ), (1 : ℤ)) c10Grid)
          0 0).best_direction = d ∧
      d ≠ GridDirection.none ∧
      inBoundsIdx ((2 : ℤ), (1 : ℤ))
        (((0 : ℕ) : ℤ) + d.vector.1, ((0 : ℕ) : ℤ) + d.vector.2) ∧
      getBest c10Grid (((0 : ℕ) : ℤ) + d.vector.1).toNat
        (((0 : ℕ) : ℤ) + d.vector.2).toNat < 65535 :=
  ⟨by decide, by decide,
    (claim_C10_unreached_cells_point_at_reached ((2 : ℤ), (1 : ℤ)) c10Grid
        (by decide) 0 0 (by decide) (by decide)).2 (by decide) (by decide)⟩

/-- C6: for sizes of at least 1 in each dimension, both world-to-index
mappings (the utils helper and the FlowField method) produce indices inside
[0, size.x) x [0, size.y) for every rational world position, however far
outside the grid: the percentage clamp and the final min against size - 1
keep the 2D indexing in bounds. -/
theorem claim_C6_locate_in_bounds (size : ℤ × ℤ) (d : ℚ) (wp : Vec3q)
    (h1 : 1 ≤ size.1) (h2 : 1 ≤ size.2) :
    (helperLocateIndex wp size d).1 < size.1.toNat ∧
    (helperLocateIndex wp size d).2 < size.2.toNat ∧
    (flowLocateIndex size d wp.x wp.z).1 < size.1.toNat ∧
    (flowLocateIndex size d wp.x wp.z).2 < size.2.toNat := by
  have hx : 1 ≤ size.1.toNat := by omega
  have hy : 1 ≤ size.2.toNat := by omega
  unfold helperLocateIndex flowLocateIndex
  dsimp only
  exact ⟨Nat.lt_of_le_of_lt (Nat.min_le_right _ _) (by omega),
    Nat.lt_of_le_of_lt (Nat.min_le_right _ _) (by omega),
    Nat.lt_of_le_of_lt (Nat.min_le_right _ _) (by omega),
    Nat.lt_of_le_of_lt (Nat.min_le_right _ _) (by omega)⟩

theorem claim_C6_witness :
    (1 : ℤ) ≤ ((3 : ℤ), (2 : ℤ)).1 ∧ (1 : ℤ) ≤ ((3 : ℤ), (2 : ℤ)).2 ∧
    ((helperLocateIndex ⟨1000, 0, -500⟩ ((3 : ℤ), (2 : ℤ)) 1).1 <
        ((3 : ℤ), (2 : ℤ)).1.toNat ∧
      (helperLocateIndex ⟨1000, 0, -500⟩ ((3 : ℤ), (2 : ℤ)) 1).2 <
        ((3 : ℤ), (2 : ℤ)).2.toNat ∧
      (flowLocateIndex ((3 : ℤ), (2 : ℤ)) 1 (Vec3q.mk 1000 0 (-500)).x
          (Vec3q.mk 1000 0 (-500)).z).1 < ((3 : ℤ), (2 : ℤ)).1.toNat ∧
      (flowLocateIndex ((3 : ℤ), (2 : ℤ)) 1 (Vec3q.mk 1000 0 (-500)).x
          (Vec3q.mk 1000 0 (-500)).z).2 < ((3 : ℤ), (2 : ℤ)).2.toNat) :=
  ⟨by decide, by decide,
    claim_C6_locate_in_bounds ((3 : ℤ), (2 : ℤ)) 1 ⟨1000, 0, -500⟩
      (by decide) (by decide)⟩

/-- C7: round-trip of the world/index mapping: looking up the stored
cell-center world position of the cell at in-bounds index (cx, cy) through
Grid::get_cell_from_world_position returns the cell whose grid index is
exactly (cx, cy). -/
theorem claim_C7_round_trip (size : ℤ × ℤ) (d : ℚ) (cx cy : ℤ)
    (hd : 0 < d) (hcx0 : 0 ≤ cx) (hcx : cx < size.1) (hcy0 : 0 ≤ cy)
    (hcy : cy < size.2) :
    ((Grid.new size d).get_cell_from_world_position
        (getCell (Grid.new size d).grid cx.toNat cy.toNat).world_position).grid_idx
      = (cx, cy) := by
  have hx : cx.toNat < size.1.toNat := by omega
  have hy : cy.toNat < size.2.toNat := by omega
  have hwf := wf_Grid_new size d
  have hcell := getCell_Grid_new size d cx.toNat cy.toNat hx hy
  have hcastx : ((cx.toNat : ℕ) : ℚ) = (cx : ℚ) := by
    have h := Int.toNat_of_nonneg hcx0
    exact_mod_cast congrArg (fun z : ℤ => (z : ℚ)) h
  have hcasty : ((cy.toNat : ℕ) : ℚ) = (cy : ℚ) := by
    have h := Int.toNat_of_nonneg hcy0
    exact_mod_cast congrArg (fun z : ℤ => (z : ℚ)) h
  have hwx : (getCell (Grid.new size d).grid cx.toNat cy.toNat).world_position.x =
      d * (cx : ℚ) + d / 2 + -((size.1 : ℚ) * d) / 2 := by
    rw [hcell]
    show d * ((cx.toNat : ℕ) : ℚ) + d / 2 + -((size.1 : ℚ) * d) / 2 = _
    rw [hcastx]
  have hwz : (getCell (Grid.new size d).grid cx.toNat cy.toNat).world_position.z =
      d * (cy : ℚ) + d / 2 + -((size.2 : ℚ) * d) / 2 := by
    rw [hcell]
    show d * ((cy.toNat : ℕ) : ℚ) + d / 2 + -((size.2 : ℚ) * d) / 2 = _
    rw [hcasty]
  have hdne : d ≠ 0 := ne_of_gt hd
  have hs1 : (size.1 : ℚ) ≠ 0 := by
    have : (0 : ℤ) < size.1 := by omega
    exact_mod_cast ne_of_gt (by exact_mod_cast this : (0 : ℚ) < (size.1 : ℚ))
  have hs2 : (size.2 : ℚ) ≠ 0 := by
    have : (0 : ℤ) < size.2 := by omega
    exact_mod_cast ne_of_gt (by exact_mod_cast this : (0 : ℚ) < (size.2 : ℚ))
  have hpx : (size.1 : ℚ) *
      (((getCell (Grid.new size d).grid cx.toNat cy.toNat).world_position.x -
          (-(size.1 : ℚ) * d / 2)) / ((size.1 : ℚ) * d)) = (cx : ℚ) + 1 / 2 := by
    rw [hwx]
    field_simp
    ring
  have hpy : (size.2 : ℚ) *
      (((getCell (Grid.new size d).grid cx.toNat cy.toNat).world_position.z -
          (-(size.2 : ℚ) * d / 2)) / ((size.2 : ℚ) * d)) = (cy : ℚ) + 1 / 2 := by
    rw [hwz]
    field_simp
    ring
  have hfloorx : ⌊((cx : ℚ) + 1 / 2 : ℚ)⌋ = cx := by
    rw [show ((cx : ℚ) + 1 / 2 : ℚ) = (1 / 2 : ℚ) + (cx : ℤ) by ring,
      Int.floor_add_int]
    norm_num
  have hfloory : ⌊((cy : ℚ) + 1 / 2 : ℚ)⌋ = cy := by
    rw [show ((cy : ℚ) + 1 / 2 : ℚ) = (1 / 2 : ℚ) + (cy : ℤ) by ring,
      Int.floor_add_int]
    norm_num
  have hglen : (Grid.new size d).grid.length = size.2.toNat := hwf.1
  have h0len : 0 < (Grid.new size d).grid.length := by omega
  have hrowlen : ((Grid.new size d).grid.getD 0 []).length = size.1.toNat := by
    rw [List.getD_eq_getElem _ [] h0len]
    exact hwf.2 _ (List.getElem_mem h0len)
  unfold Grid.get_cell_from_world_position get_cell_from_world_position_helper_generic
    floorToUsize
  dsimp only
  rw [show (Grid.new size d).size = size from rfl,
    show (Grid.new size d).cell_diameter = d from rfl,
    hpx, hpy, hfloorx, hfloory, hglen, hrowlen,
    Nat.min_eq_left (show cx.toNat ≤ size.1.toNat - 1 by omega),
    Nat.min_eq_left (show cy.toNat ≤ size.2.toNat - 1 by omega), hcell]
  show ((cx.toNat : ℤ), (cy.toNat : ℤ)) = (cx, cy)
  rw [Int.toNat_of_nonneg hcx0, Int.toNat_of_nonneg hcy0]

theorem claim_C7_witness :
    (0 : ℚ) < 1 ∧ (0 : ℤ) ≤ 1 ∧ (1 : ℤ) < ((2 : ℤ), (2 : ℤ)).1 ∧
    (0 : ℤ) ≤ 0 ∧ (0 : ℤ) < ((2 : ℤ), (2 : ℤ)).2 ∧
    ((Grid.new ((2 : ℤ), (2 : ℤ)) 1).get_cell_from_world_position
        (getCell (Grid.new ((2 : ℤ), (2 : ℤ)) 1).grid (1 : ℤ).toNat
          (0 : ℤ).toNat).world_position).grid_idx = ((1 : ℤ), (0 : ℤ)) :=
  ⟨by decide, by decide, by decide, by decide, by decide,
    claim_C7_round_trip ((2 : ℤ), (2 : ℤ)) 1 1 0 (by decide) (by decide)
      (by decide) (by decide) (by decide)⟩

theorem Grid.eq_of_fields {g1 g2 : Grid} (h1 : g1.cell_radius = g2.cell_radius)
    (h2 : g1.cell_diameter = g2.cell_diameter) (h3 : g1.grid = g2.grid)
    (h4 : g1.size = g2.size) : g1 = g2 := by
  cases g1
  cases g2
  simp only at h1 h2 h3 h4
  rw [h1, h2, h3, h4]

/-- C9: on a freshly constructed grid (all costs at the baseline 1), marking
an object footprint with update_cell_costs and then resetting the same
footprint with reset_cell_costs restores the grid exactly; and resetting a
never-raised footprint is a no-op. -/
theorem claim_C9_cost_round_trip (size : ℤ × ℤ) (d : ℚ) (e : ℕ) (t : Vec3q)
    (obj : ℚ × ℚ) :
    ((Grid.new size d).update_cell_costs e t obj).reset_cell_costs e t obj =
        Grid.new size d ∧
      (Grid.new size d).reset_cell_costs e t obj = Grid.new size d := by
  have hwf := wf_Grid_new size d
  have hfpin := footprint_inBounds (Grid.new size d) t obj
  have hwfup : wfDims size (setCostsTo (Grid.new size d).grid
      ((Grid.new size d).for_each_cell_in_obj_footprint t obj) 255) :=
    wf_setCostsTo _ _ _ hwf
  have hcost1 : ∀ x y, (∃ p ∈ (Grid.new size d).for_each_cell_in_obj_footprint t obj,
      p.1.toNat = x ∧ p.2.toNat = y) → (getCell (Grid.new size d).grid x y).cost = 1 := by
    intro x y hex
    obtain ⟨p, hpmem, hpx, hpy⟩ := hex
    have hpin : inBoundsIdx size p := hfpin p hpmem
    obtain ⟨ha, hb, hc, hd'⟩ := hpin
    have hxb : x < size.1.toNat := by omega
    have hyb : y < size.2.toNat := by omega
    rw [getCell_Grid_new size d x y hxb hyb]
    rfl
  have hpt : ∀ x y, getCell (setCostsTo (setCostsTo (Grid.new size d).grid
      ((Grid.new size d).for_each_cell_in_obj_footprint t obj) 255)
      ((Grid.new size d).for_each_cell_in_obj_footprint t obj) 1) x y =
      getCell (Grid.new size d).grid x y := by
    intro x y
    rw [getCell_setCostsTo _ _ 1 hwfup hfpin, getCell_setCostsTo _ _ 255 hwf hfpin]
    by_cases hex : ∃ p ∈ (Grid.new size d).for_each_cell_in_obj_footprint t obj,
        p.1.toNat = x ∧ p.2.toNat = y
    · rw [if_pos hex, if_pos hex]
      exact cell_cost_update_self (hcost1 x y hex)
    · rw [if_neg hex, if_neg hex]
  have hpt1 : ∀ x y, getCell (setCostsTo (Grid.new size d).grid
      ((Grid.new size d).for_each_cell_in_obj_footprint t obj) 1) x y =
      getCell (Grid.new size d).grid x y := by
    intro x y
    rw [getCell_setCostsTo _ _ 1 hwf hfpin]
    by_cases hex : ∃ p ∈ (Grid.new size d).for_each_cell_in_obj_footprint t obj,
        p.1.toNat = x ∧ p.2.toNat = y
    · rw [if_pos hex]
      exact cell_cost_update_self (hcost1 x y hex)
    · rw [if_neg hex]
  have hgrid : setCostsTo (setCostsTo (Grid.new size d).grid
      ((Grid.new size d).for_each_cell_in_obj_footprint t obj) 255)
      ((Grid.new size d).for_each_cell_in_obj_footprint t obj) 1 =
      (Grid.new size d).grid := by
    apply grid_list_ext
    · rw [length_setCostsTo, length_setCostsTo]
    · intro y
      rw [row_length_setCostsTo, row_length_setCostsTo]
    · exact hpt
  have hgrid1 : setCostsTo (Grid.new size d).grid
      ((Grid.new size d).for_each_cell_in_obj_footprint t obj) 1 =
      (Grid.new size d).grid := by
    apply grid_list_ext
    · rw [length_setCostsTo]
    · intro y
      rw [row_length_setCostsTo]
    · exact hpt1
  constructor
  · refine Grid.eq_of_fields rfl rfl ?_ rfl
    show setCostsTo (setCostsTo (Grid.new size d).grid
        ((Grid.new size d).for_each_cell_in_obj_footprint t obj) 255)
        ((Grid.new size d).for_each_cell_in_obj_footprint t obj) 1 =
      (Grid.new size d).grid
    exact hgrid
  · refine Grid.eq_of_fields rfl rfl ?_ rfl
    show setCostsTo (Grid.new size d).grid
        ((Grid.new size d).for_each_cell_in_obj_footprint t obj) 1 =
      (Grid.new size d).grid
    exact hgrid1

theorem claim_C3_witness :
    getCost (integrationInitState wallGrid.grid
        (getCell wallGrid.grid 0 0).grid_idx).grid 1 0 = 255 ∧
    (getBest ((relaxStep wallGrid.size)^[5]
        (integrationInitState wallGrid.grid
          (getCell wallGrid.grid 0 0).grid_idx)).grid 1 0 =
      getBest (integrationInitState wallGrid.grid
        (getCell wallGrid.grid 0 0).grid_idx).grid 1 0 ∧
    ∀ p ∈ ((relaxStep wallGrid.size)^[5]
        (integrationInitState wallGrid.grid
          (getCell wallGrid.grid 0 0).grid_idx)).queue,
      getCost ((relaxStep wallGrid.size)^[5]
        (integrationInitState wallGrid.grid
          (getCell wallGrid.grid 0 0).grid_idx)).grid p.1.toNat p.2.toNat ≠ 255) :=
  ⟨by decide,
    claim_C3_walls_block_propagation wallGrid (getCell wallGrid.grid 0 0) 5 1 0
      (by decide)⟩

end RtsPath